import Mathlib

/-!
# CCRouter — verification of the spec against the source

Shallow embedding of the CCRouter protocol-translation gateway:

* the usage/billing inference engine (`usageUtils.ts`: `computeUsageMetrics`,
  `normaliseTokens`, `clampWriteTokens`, `buildCacheCreationBreakdown`,
  `deriveWriteRate`, `roundCurrency`),
* the cache-control classifier (`formatRequest.ts`: `collectCacheControlMetadata`,
  `normalizeTtlRaw`),
* the tool-call pairing validator (`formatRequest.ts`: `validateOpenAIToolCalls`),
* the image mapper (`formatRequest.ts`: `mapAnthropicImageToOpenAIImageUrl`),
* the streaming SSE translator (`streamResponse.ts`: `streamOpenAIToAnthropic`,
  `calculateStreamUsage`; `pricingUtils.ts`: `calculateCacheCreationTokens`).

JavaScript numbers are modeled as rationals (ℚ) for monetary values and rates and
as integers (ℤ) for token counts; a field that can be `undefined`/`null`/non-finite
is an `Option`.  String-typed JSON fields are modeled as `Option String`
(`none` = absent); JavaScript truthiness of such a field is
"`some s` with `s ≠ \"\"`".  `JSON.parse` and `parseFloat` are not re-implemented:
parsed frames and parsed rates enter the model as structured values.
-/

namespace CCRouter

/-- JS `Math.round`: round half toward positive infinity. -/
def jsRound (q : ℚ) : ℤ := ⌊q + 1/2⌋

/-! ## Billing engine (`usageUtils.ts`) -/

/-- `CacheTtlMode` from `formatRequest.ts`. -/
inductive CacheTtlMode
  | ephemeral_5m
  | ephemeral_1h
  | mixed
  deriving DecidableEq, Repr

/-- One explicit TTL marker, `'5m' | '1h'`. -/
inductive Ttl
  | t5m
  | t1h
  deriving DecidableEq, Repr

/-- `CacheControlMetadata` from `formatRequest.ts`. -/
structure CacheControlMetadata where
  ttlMode : CacheTtlMode
  explicitTtls : List Ttl
  sawEphemeralWithoutTtl : Bool
  sawCacheControl : Bool
  sources : List String
  deriving DecidableEq, Repr

/-- `normaliseTokens`: `undefined`/`null`/non-finite → 0, else `Math.round`,
then clamp negatives to 0.  Non-finite and unparseable-string inputs are
modeled as `none`. -/
def normaliseTokens : Option ℚ → ℤ
  | none => 0
  | some q => let rounded := jsRound q; if rounded < 0 then 0 else rounded

/-- `PRECISION = 1e-6`; `roundCurrency` rounds to that precision
(`Math.round(value * 1e6) / 1e6`; the `-0` fix-up is invisible in ℚ). -/
def roundCurrency (value : ℚ) : ℚ := (jsRound (value * 1000000) : ℚ) / 1000000

/-- `deriveWriteRate(ttlMode, promptRate)`:
0 for a non-positive prompt rate, ×2.0 for `ephemeral_1h`,
×1.25 for `ephemeral_5m` and `mixed`. -/
def deriveWriteRate (ttlMode : CacheTtlMode) (promptRate : ℚ) : ℚ :=
  if promptRate ≤ 0 then 0
  else
    match ttlMode with
    | .ephemeral_1h => promptRate * 2
    | .mixed => promptRate * (5/4)
    | .ephemeral_5m => promptRate * (5/4)

/-- The optional upstream `cache_creation` breakdown object. -/
structure UpstreamCacheCreation where
  ephemeral_5m_input_tokens : Option ℚ := none
  ephemeral_1h_input_tokens : Option ℚ := none
  deriving DecidableEq, Repr

/-- `UpstreamUsage`.  `cost` is the `safeNumber`-parsed value when the field is
present (`safeNumber` maps strings and non-finite values to a finite number, so a
present cost is always finite); `cached_tokens` flattens
`prompt_tokens_details?.cached_tokens`. -/
structure UpstreamUsage where
  prompt_tokens : Option ℚ := none
  completion_tokens : Option ℚ := none
  reasoning_tokens : Option ℚ := none
  cost : Option ℚ := none
  cached_tokens : Option ℚ := none
  cache_creation_input_tokens : Option ℚ := none
  cache_creation : Option UpstreamCacheCreation := none
  deriving DecidableEq, Repr

/-- `ModelPricing` with `prompt`/`completion` already parsed by `safeNumber`
(rates the billing engine reads; `resolvePricing` derives the rest). -/
structure ModelPricing where
  prompt : ℚ := 0
  completion : ℚ := 0
  deriving DecidableEq, Repr

/-- The pure part of `resolvePricing`: the derived per-token rates.
`pricing = none` models both a cache miss and a failed network fetch. -/
structure PricingResolution where
  promptRate : ℚ
  completionRate : ℚ
  readRate : ℚ
  writeRate5m : ℚ
  writeRate1h : ℚ
  deriving DecidableEq, Repr

/-- `resolvePricing` (value semantics; `CACHE_READ_MULTIPLIER = 0.1`,
`CACHE_WRITE_MULTIPLIER_5M = 1.25`, `CACHE_WRITE_MULTIPLIER_1H = 2.0`). -/
def resolvePricing (pricing : Option ModelPricing) : PricingResolution :=
  let promptRate := match pricing with | some p => p.prompt | none => 0
  let completionRate := match pricing with | some p => p.completion | none => 0
  { promptRate := promptRate
    completionRate := completionRate
    readRate := if promptRate > 0 then promptRate * (1/10) else 0
    writeRate5m := if promptRate > 0 then promptRate * (5/4) else 0
    writeRate1h := if promptRate > 0 then promptRate * 2 else 0 }

/-- `clampWriteTokens(writeTokens, promptTokens)`. -/
def clampWriteTokens (writeTokens promptTokens : ℤ) : ℤ :=
  if writeTokens < 0 then 0
  else if writeTokens > promptTokens then promptTokens
  else writeTokens

/-- The four cache-write determination sources. -/
inductive EstimationSource
  | upstream_detailed
  | upstream_simple
  | inferred
  | unavailable
  deriving DecidableEq, Repr

/-- The public (republished) 5m/1h breakdown. -/
structure PublicCacheCreation where
  ephemeral_5m_input_tokens : ℤ
  ephemeral_1h_input_tokens : ℤ
  deriving DecidableEq, Repr

/-- Return type of `buildCacheCreationBreakdown`. -/
structure BreakdownPayload where
  breakdown : Option PublicCacheCreation
  allowField : Bool
  deriving DecidableEq, Repr

/-- `buildCacheCreationBreakdown(source, ttlMode, writeTokens, upstreamBreakdown)`. -/
def buildCacheCreationBreakdown (source : EstimationSource) (ttlMode : CacheTtlMode)
    (writeTokens : ℤ) (upstreamBreakdown : Option UpstreamCacheCreation) :
    BreakdownPayload :=
  if source = .upstream_detailed then
    let five := normaliseTokens (upstreamBreakdown.bind (·.ephemeral_5m_input_tokens))
    let one := normaliseTokens (upstreamBreakdown.bind (·.ephemeral_1h_input_tokens))
    { breakdown := some { ephemeral_5m_input_tokens := five, ephemeral_1h_input_tokens := one }
      allowField := true }
  else if source = .upstream_simple ∨ source = .unavailable then
    { breakdown := none, allowField := false }
  else if ttlMode = .mixed then
    { breakdown := none, allowField := false }
  else if ttlMode = .ephemeral_1h then
    { breakdown := some { ephemeral_5m_input_tokens := 0, ephemeral_1h_input_tokens := writeTokens }
      allowField := true }
  else
    { breakdown := some { ephemeral_5m_input_tokens := writeTokens, ephemeral_1h_input_tokens := 0 }
      allowField := true }

/-- Intermediate result of the cache-write determination branch of
`computeUsageMetrics` (lines 294–375 of `usageUtils.ts`). -/
structure CacheWriteDecision where
  writeTokens : ℤ
  costWriteRaw : ℚ
  estimationSource : EstimationSource
  estimationNotes : List String
  inferencePerformed : Bool
  deriving DecidableEq, Repr

/-- The `else if (cache_creation_input_tokens …)` / `else { … inference … }`
part of the cache-write determination chain of `computeUsageMetrics`
(reached when no usable upstream `cache_creation` breakdown exists). -/
def determineCacheWriteNoBreakdown (ttlMode : CacheTtlMode) (promptTokens : ℤ)
    (rates : PricingResolution) (actualCostRaw : Option ℚ)
    (costInputRaw costOutputRaw costReadRaw : Option ℚ)
    (cacheCreationScalar : Option ℚ) : CacheWriteDecision :=
  match cacheCreationScalar with
  | some scalar =>
    let writeTokens := clampWriteTokens (normaliseTokens (some scalar)) promptTokens
    let rate := if ttlMode = .ephemeral_1h then rates.writeRate1h else rates.writeRate5m
    { writeTokens := writeTokens
      costWriteRaw := if rate > 0 then rate * writeTokens else 0
      estimationSource := .upstream_simple
      estimationNotes := []
      inferencePerformed := false }
  | none =>
    match actualCostRaw, costInputRaw, costOutputRaw, costReadRaw with
    | some actual, some costIn, some costOut, some costRead =>
      let knownCost := costIn + costOut + costRead
      let residualBeforeClamp := actual - knownCost
      let notes0 := if residualBeforeClamp < 0 then ["negative_residual_clamped"] else []
      let residualAfterClamp := if residualBeforeClamp > 0 then residualBeforeClamp else 0
      let rate := deriveWriteRate ttlMode rates.promptRate
      if rate > 0 then
        let writesRaw := residualAfterClamp / rate
        let roundedWrites := jsRound writesRaw
        let clampedWrites := clampWriteTokens roundedWrites promptTokens
        let notes1 := notes0 ++ (if clampedWrites ≠ roundedWrites then ["write_tokens_clamped"] else [])
        let writeTokens := max 0 clampedWrites
        let notes2 := notes1 ++ (if ttlMode = .mixed then ["mixed_ttl_ambiguous"] else [])
        { writeTokens := writeTokens
          costWriteRaw := rate * writeTokens
          estimationSource := .inferred
          estimationNotes := notes2
          inferencePerformed := true }
      else
        { writeTokens := 0
          costWriteRaw := 0
          estimationSource := .unavailable
          estimationNotes := notes0 ++ ["missing_write_rate"]
          inferencePerformed := false }
    | _, _, _, _ =>
      { writeTokens := 0
        costWriteRaw := 0
        estimationSource := .unavailable
        estimationNotes :=
          (if actualCostRaw.isNone then ["missing_actual_cost"] else []) ++
          (if costInputRaw.isNone ∨ costOutputRaw.isNone ∨ costReadRaw.isNone then
            ["missing_pricing"] else [])
        inferencePerformed := false }

/-- The cache-write determination if/else-if/else chain of `computeUsageMetrics`.
`costInputRaw`/`costOutputRaw`/`costReadRaw` are `none` when the corresponding
rate is non-positive (the source computes `NaN` there); a present `cost` is
always finite (see `UpstreamUsage.cost`), so the source's
`Number.isFinite(actualCostRaw)` test is `true` whenever `actualCostRaw ≠ null`. -/
def determineCacheWrite (ttlMode : CacheTtlMode) (promptTokens : ℤ)
    (rates : PricingResolution) (actualCostRaw : Option ℚ)
    (costInputRaw costOutputRaw costReadRaw : Option ℚ)
    (upstreamBreakdown : Option UpstreamCacheCreation)
    (cacheCreationScalar : Option ℚ) : CacheWriteDecision :=
  match upstreamBreakdown with
  | some bd =>
    if bd.ephemeral_5m_input_tokens.isSome ∨ bd.ephemeral_1h_input_tokens.isSome then
      let five := normaliseTokens bd.ephemeral_5m_input_tokens
      let one := normaliseTokens bd.ephemeral_1h_input_tokens
      { writeTokens := max 0 (five + one)
        costWriteRaw :=
          (if rates.writeRate5m > 0 then (five : ℚ) * rates.writeRate5m else 0) +
          (if rates.writeRate1h > 0 then (one : ℚ) * rates.writeRate1h else 0)
        estimationSource := .upstream_detailed
        estimationNotes := []
        inferencePerformed := false }
    else
      determineCacheWriteNoBreakdown ttlMode promptTokens rates actualCostRaw
        costInputRaw costOutputRaw costReadRaw cacheCreationScalar
  | none =>
    determineCacheWriteNoBreakdown ttlMode promptTokens rates actualCostRaw
      costInputRaw costOutputRaw costReadRaw cacheCreationScalar

/-- The public `usage` object of a `BillingComputationResult`. -/
structure BillingUsage where
  input_tokens : ℤ
  output_tokens : ℤ
  cache_read_input_tokens : ℤ
  cache_creation_input_tokens : ℤ
  cache_creation : Option PublicCacheCreation
  reasoning_tokens : Option ℤ
  deriving DecidableEq, Repr

/-- `CostBreakdown`. -/
structure CostBreakdown where
  input : ℚ
  output : ℚ
  read : ℚ
  write : ℚ
  total : ℚ
  residual : ℚ
  actual : Option ℚ
  deriving DecidableEq, Repr

/-- The `estimation` field of a `BillingComputationResult`. -/
structure EstimationInfo where
  inferred : Bool
  source : EstimationSource
  ttlMode : CacheTtlMode
  notes : List String
  deriving DecidableEq, Repr

/-- `BillingComputationResult` (the debug payload duplicates the other fields and
is omitted). -/
structure BillingComputationResult where
  usage : BillingUsage
  costs : CostBreakdown
  estimation : EstimationInfo
  deriving DecidableEq, Repr

/-- `computeUsageMetrics`.  `pricing` is the resolved `ModelPricing` (a value of
`none` models both a cache miss and a failed fetch); the function is otherwise a
direct transcription of `usageUtils.ts` lines 269–498. -/
def computeUsageMetrics (usage : Option UpstreamUsage)
    (cacheMetadata : Option CacheControlMetadata)
    (pricing : Option ModelPricing) : BillingComputationResult :=
  let upstreamUsage := usage.getD {}
  let ttlMode := match cacheMetadata with | some m => m.ttlMode | none => .ephemeral_5m
  let promptTokens := normaliseTokens upstreamUsage.prompt_tokens
  let completionTokens := normaliseTokens upstreamUsage.completion_tokens
  let reasoningTokens := normaliseTokens upstreamUsage.reasoning_tokens
  let cacheReadTokens := normaliseTokens upstreamUsage.cached_tokens
  let outputTokens := completionTokens
  let inputTokens := max 0 (promptTokens - cacheReadTokens)
  let actualCostRaw := upstreamUsage.cost
  let rates := resolvePricing pricing
  let costInputRaw : Option ℚ :=
    if rates.promptRate > 0 then some ((inputTokens : ℚ) * rates.promptRate) else none
  let costOutputRaw : Option ℚ :=
    if rates.completionRate > 0 then some ((outputTokens : ℚ) * rates.completionRate) else none
  let costReadRaw : Option ℚ :=
    if rates.readRate > 0 then some ((cacheReadTokens : ℚ) * rates.readRate) else none
  let upstreamBreakdown := upstreamUsage.cache_creation
  let decision := determineCacheWrite ttlMode promptTokens rates actualCostRaw
    costInputRaw costOutputRaw costReadRaw upstreamBreakdown
    upstreamUsage.cache_creation_input_tokens
  let costWriteRaw := if decision.costWriteRaw < 0 then 0 else decision.costWriteRaw
  let cacheCreationPayload :=
    buildCacheCreationBreakdown decision.estimationSource ttlMode decision.writeTokens
      upstreamBreakdown
  let costInput := match costInputRaw with | some q => roundCurrency q | none => 0
  let costOutput := match costOutputRaw with | some q => roundCurrency q | none => 0
  let costRead := match costReadRaw with | some q => roundCurrency q | none => 0
  let costWrite := roundCurrency costWriteRaw
  let actualCostRounded := actualCostRaw.map roundCurrency
  let legSum := costInput + costOutput + costRead + costWrite
  let totalCost := match actualCostRounded with
    | some a => a
    | none => roundCurrency legSum
  let residualCost := match actualCostRounded with
    | some a => roundCurrency (a - legSum)
    | none => 0
  { usage :=
      { input_tokens := inputTokens
        output_tokens := outputTokens
        cache_read_input_tokens := cacheReadTokens
        cache_creation_input_tokens := decision.writeTokens
        cache_creation :=
          if cacheCreationPayload.allowField then
            some (cacheCreationPayload.breakdown.getD
              { ephemeral_5m_input_tokens := 0, ephemeral_1h_input_tokens := 0 })
          else none
        reasoning_tokens := if reasoningTokens > 0 then some reasoningTokens else none }
    costs :=
      { input := costInput
        output := costOutput
        read := costRead
        write := costWrite
        total := totalCost
        residual := residualCost
        actual := actualCostRounded }
    estimation :=
      { inferred := decision.estimationSource = .inferred ∧ decision.inferencePerformed
        source := decision.estimationSource
        ttlMode := ttlMode
        notes := decision.estimationNotes } }

/-! ## Cache-control classifier (`formatRequest.ts`: `collectCacheControlMetadata`) -/

/-- A JSON value sitting in a `ttl` position: a string, a finite number, or
anything else (`other` also stands for non-finite numbers, which fail the
source's `Number.isFinite` test). -/
inductive TtlValue
  | str (s : String)
  | num (q : ℚ)
  | other
  deriving DecidableEq, Repr

/-- `normalizeTtlRaw(ttl)`. -/
def normalizeTtlRaw : Option TtlValue → Option Ttl
  | some (.str s) =>
    let normalized := s.trim.toLower
    if normalized ∈ ["1h", "1hr", "3600s", "3600", "60m"] then some .t1h
    else if normalized ∈ ["5m", "5min", "300s", "300"] then some .t5m
    else none
  | some (.num q) =>
    if q ≥ 3600 then some .t1h
    else if q > 0 then some .t5m
    else none
  | some .other => none
  | none => none

/-- A `cache_control` object.  An absent or non-object `cache_control` field is
modeled as `none` at the use site. -/
structure CacheControl where
  type : String
  ttl : Option TtlValue := none
  deriving DecidableEq, Repr

/-- An object content part, carrying an optional `cache_control`.  A non-object
array entry is modeled as `none` at the use site. -/
structure ContentPart where
  cache_control : Option CacheControl := none
  deriving DecidableEq, Repr

/-- The `content` field of a system item or message: falsy, an array of parts,
a single object, or a truthy non-object primitive (e.g. a string). -/
inductive ContentVal
  | null
  | arr (parts : List (Option ContentPart))
  | obj (part : ContentPart)
  | prim
  deriving DecidableEq, Repr

/-- A system item or message as seen by the classifier: only its own
`cache_control` and its `content` matter.  A non-object item behaves exactly
like the default value (no cache control, no content). -/
structure BodyMessage where
  cache_control : Option CacheControl := none
  content : ContentVal := .null
  deriving DecidableEq, Repr

/-- The request body's `system` field: absent/falsy, an array, a single
object, or a truthy non-object primitive (a plain string system prompt). -/
inductive SystemVal
  | absent
  | arr (items : List BodyMessage)
  | obj (item : BodyMessage)
  | prim
  deriving DecidableEq, Repr

/-- The request body as seen by the classifier.  `messages = none` models a
missing or non-array `messages` field. -/
structure RequestBody where
  system : SystemVal := .absent
  messages : Option (List BodyMessage) := none
  deriving DecidableEq, Repr

/-- Accumulator of `collectCacheControlMetadata`: the `explicit` Set is an
insertion-ordered duplicate-free list, as JavaScript `Set` iteration order is
insertion order. -/
structure CollectState where
  explicit : List Ttl := []
  sources : List String := []
  sawEphemeralWithoutTtl : Bool := false
  sawCacheControl : Bool := false
  deriving DecidableEq, Repr

/-- `Set.add`: append if not already present. -/
def addTtl (l : List Ttl) (t : Ttl) : List Ttl :=
  if t ∈ l then l else l ++ [t]

/-- The rendered `'5m' | '1h'` value used in provenance strings. -/
def ttlString : Ttl → String
  | .t5m => "5m"
  | .t1h => "1h"

/-- `recordCacheControl(value, origin)` acting on the accumulator; `cc` is the
(object) `cache_control` field of `value`, or `none` when absent/non-object. -/
def recordCacheControl (st : CollectState) (cc : Option CacheControl)
    (origin : String) : CollectState :=
  match cc with
  | none => st
  | some c =>
    if c.type ≠ "ephemeral" then st
    else
      let st := { st with sawCacheControl := true }
      match normalizeTtlRaw c.ttl with
      | some t =>
        { st with
          explicit := addTtl st.explicit t
          sources := st.sources ++ [origin ++ ":" ++ ttlString t] }
      | none =>
        { st with
          sawEphemeralWithoutTtl := true
          sources := st.sources ++ [origin ++ ":default"] }

/-- The indexed `content.forEach((part, idx) => …)` loop of
`inspectContentParts`. -/
def collectParts (origin : String) (st : CollectState) (idx : ℕ) :
    List (Option ContentPart) → CollectState
  | [] => st
  | part :: rest =>
    let st :=
      match part with
      | some pp =>
        recordCacheControl st pp.cache_control
          (origin ++ ".content[" ++ toString idx ++ "]")
      | none => st
    collectParts origin st (idx + 1) rest

/-- `inspectContentParts(content, origin)`. -/
def inspectContentParts (st : CollectState) (content : ContentVal)
    (origin : String) : CollectState :=
  match content with
  | .null => st
  | .arr parts => collectParts origin st 0 parts
  | .obj part => recordCacheControl st part.cache_control (origin ++ ".content")
  | .prim => st

/-- The indexed loop over system items / messages: record the item's own
`cache_control`, then inspect its content parts. -/
def collectItems (originPre : String) (st : CollectState) (idx : ℕ) :
    List BodyMessage → CollectState
  | [] => st
  | m :: rest =>
    let origin := originPre ++ "[" ++ toString idx ++ "]"
    let st := recordCacheControl st m.cache_control origin
    let st := inspectContentParts st m.content origin
    collectItems originPre st (idx + 1) rest

/-- The traversal part of `collectCacheControlMetadata`: the accumulator after
scanning `body.system` and `body.messages`. -/
def collectBodyState (body : RequestBody) : CollectState :=
  let st0 : CollectState := {}
  let st1 :=
    match body.system with
    | .arr items => collectItems "system" st0 0 items
    | .obj item =>
      inspectContentParts (recordCacheControl st0 item.cache_control "system")
        item.content "system"
    | _ => st0
  match body.messages with
  | some msgs => collectItems "messages" st1 0 msgs
  | none => st1

/-- `collectCacheControlMetadata(body)`. -/
def collectCacheControlMetadata (body : RequestBody) : CacheControlMetadata :=
  let st2 := collectBodyState body
  let hasExplicit1h := Ttl.t1h ∈ st2.explicit
  let hasExplicit5m := Ttl.t5m ∈ st2.explicit
  let ttlMode : CacheTtlMode :=
    if hasExplicit1h ∧ (hasExplicit5m ∨ st2.sawEphemeralWithoutTtl) then .mixed
    else if hasExplicit1h then .ephemeral_1h
    else .ephemeral_5m
  { ttlMode := ttlMode
    explicitTtls := st2.explicit
    sawEphemeralWithoutTtl := st2.sawEphemeralWithoutTtl
    sawCacheControl := st2.sawCacheControl
    sources := st2.sources }

/-- A marker test on a `cache_control` value: the block is an ephemeral cache
marker whose normalised TTL satisfies `f`.  Used to state which markers a
request body "has seen", independently of the classifier's accumulator. -/
def ccIsMarker (f : Option Ttl → Bool) : Option CacheControl → Bool
  | some c => c.type = "ephemeral" ∧ f (normalizeTtlRaw c.ttl)
  | none => false

/-- Marker test over a `content` field. -/
def contentHasMarker (f : Option Ttl → Bool) : ContentVal → Bool
  | .arr parts =>
    parts.any fun p =>
      match p with
      | some pp => ccIsMarker f pp.cache_control
      | none => false
  | .obj part => ccIsMarker f part.cache_control
  | _ => false

/-- Marker test over one system item / message. -/
def itemHasMarker (f : Option Ttl → Bool) (m : BodyMessage) : Bool :=
  ccIsMarker f m.cache_control || contentHasMarker f m.content

/-- Marker test over a whole request body, scanning exactly the positions the
classifier scans. -/
def bodyHasMarker (f : Option Ttl → Bool) (body : RequestBody) : Bool :=
  (match body.system with
   | .arr items => items.any (itemHasMarker f)
   | .obj item => itemHasMarker f item
   | _ => false) ||
  (match body.messages with
   | some msgs => msgs.any (itemHasMarker f)
   | none => false)

/-- The body carries an explicit marker normalising to `t`. -/
def seenExplicit (t : Ttl) (body : RequestBody) : Bool :=
  bodyHasMarker (fun x => x = some t) body

/-- The body carries an untyped (or unrecognised-TTL) ephemeral marker. -/
def seenUntyped (body : RequestBody) : Bool :=
  bodyHasMarker (fun x => x = none) body

/-! ## Tool-call pairing validator (`formatRequest.ts`: `validateOpenAIToolCalls`) -/

/-- A tool call as the validator sees it: only its `id` matters.  `id = none`
models an absent id; matching uses JS strict equality, under which two absent
ids are equal. -/
structure ToolCall where
  id : Option String := none
  deriving DecidableEq, Repr

/-- A message as the validator sees it.  `hasContent` is the JS truthiness of
`content`; `tool_calls = some l` models a present `tool_calls` array (an
array, even empty, is truthy); `tool_call_id` is a tool message's id field. -/
structure OpenAIMessage where
  role : String
  hasContent : Bool := false
  tool_calls : Option (List ToolCall) := none
  tool_call_id : Option String := none
  deriving DecidableEq, Repr

/-- The `hasImmediateToolCall` computation of the tool-message branch:
`nearestNonTool` is the nearest preceding non-tool message of the original
list (the JS loop reaches it by walking back over `tool` messages), and the
check requires it to be an assistant whose (original) `tool_calls` contain a
matching id. -/
def hasImmediateToolCall (nearestNonTool : Option OpenAIMessage)
    (toolCallId : Option String) : Bool :=
  match nearestNonTool with
  | some prev =>
    prev.role == "assistant" &&
      (match prev.tool_calls with
       | some l => l.any fun tc => tc.id == toolCallId
       | none => false)
  | none => false

/-- The body of the `validateOpenAIToolCalls` loop.  `nearestNonTool` carries
the most recent non-tool message of the original list (`none` before any);
the forward scan `immediateToolMessages` is the run of `tool` messages
immediately following the assistant message in the original list. -/
def validateGo (nearestNonTool : Option OpenAIMessage) :
    List OpenAIMessage → List OpenAIMessage
  | [] => []
  | m :: rest =>
    if m.role = "assistant" ∧ m.tool_calls.isSome then
      let immediateToolMessages := rest.takeWhile fun x => x.role == "tool"
      let validToolCalls := (m.tool_calls.getD []).filter fun tc =>
        immediateToolMessages.any fun tm => tm.tool_call_id == tc.id
      let m' : OpenAIMessage :=
        if validToolCalls ≠ [] then { m with tool_calls := some validToolCalls }
        else { m with tool_calls := none }
      (if m'.hasContent || m'.tool_calls.isSome then [m'] else []) ++
        validateGo (some m) rest
    else if m.role = "tool" then
      (if hasImmediateToolCall nearestNonTool m.tool_call_id then [m] else []) ++
        validateGo nearestNonTool rest
    else
      m :: validateGo (some m) rest

/-- `validateOpenAIToolCalls(messages)`. -/
def validateOpenAIToolCalls (messages : List OpenAIMessage) : List OpenAIMessage :=
  validateGo none messages

/-- Pairing-invariant checker over an (output) message list, tracking the
nearest preceding non-tool message: every `tool` message must match a
surviving tool call of the nearest preceding non-tool message (which must be
an assistant), and every assistant's surviving tool calls must each match a
tool message in the run of consecutive `tool` messages immediately following
it. -/
def wellPaired (ctx : Option OpenAIMessage) : List OpenAIMessage → Bool
  | [] => true
  | m :: rest =>
    if m.role = "tool" then
      (match ctx with
       | some p =>
         p.role == "assistant" &&
           (match p.tool_calls with
            | some l => l.any fun tc => tc.id == m.tool_call_id
            | none => false)
       | none => false) &&
        wellPaired ctx rest
    else
      (if m.role = "assistant" then
        (match m.tool_calls with
         | some l =>
           l.all fun tc =>
             (rest.takeWhile fun x => x.role == "tool").any fun tm =>
               tm.tool_call_id == tc.id
         | none => true)
       else true) &&
        wellPaired (some m) rest

/-! ## Image source mapping (`formatRequest.ts`: `mapAnthropicImageToOpenAIImageUrl`) -/

/-- An image block's `source` object.  Each field is string-or-absent
(`none` = `undefined`/`null`); JS truthiness of such a field is `some s` with
`s ≠ ""`.  `contentPart?.source || {}` makes a missing source behave as the
default value. -/
structure ImageSource where
  type : Option String := none
  url : Option String := none
  media_type : Option String := none
  data : Option String := none
  deriving DecidableEq, Repr

/-- The produced target-protocol block `{type: 'image_url', image_url: {url}}`
(only the URL carries information). -/
structure ImageUrlBlock where
  url : String
  deriving DecidableEq, Repr

/-- The `allowed` media-type set of the base64 branch. -/
def allowedImageMediaTypes : List String :=
  ["image/jpeg", "image/png", "image/gif", "image/webp"]

/-- `mapAnthropicImageToOpenAIImageUrl(contentPart)`: `BadRequestError` (an
HTTP-400 client error) is modeled as `Except.error` carrying the message. -/
def mapAnthropicImageToOpenAIImageUrl (src : ImageSource) :
    Except String ImageUrlBlock :=
  match src.type with
  | none => .error "Image block is missing source.type"
  | some srcType =>
    if srcType = "" then .error "Image block is missing source.type"
    else if srcType = "url" then
      match src.url with
      | some u =>
        if u = "" then .error "Image source.type=url requires a valid url"
        else .ok { url := u }
      | none => .error "Image source.type=url requires a valid url"
    else if srcType = "base64" then
      match src.media_type with
      | some mediaType =>
        if mediaType ∈ allowedImageMediaTypes then
          match src.data with
          | some d =>
            if d = "" then
              .error "Image source.type=base64 requires a base64 data string"
            else .ok { url := "data:" ++ mediaType ++ ";base64," ++ d }
          | none => .error "Image source.type=base64 requires a base64 data string"
        else
          .error ("Unsupported image media_type: " ++ mediaType ++
            ". Supported types: image/jpeg, image/png, image/gif, image/webp.")
      | none =>
        .error ("Unsupported image media_type: " ++ "undefined" ++
          ". Supported types: image/jpeg, image/png, image/gif, image/webp.")
    else if srcType = "file" then
      .error ("Image source.type=file is not supported via OpenRouter " ++
        "/chat/completions. Please use a publicly accessible URL " ++
        "(source.type=\"url\") or provide base64 data (source.type=\"base64\").")
    else
      .error ("Unsupported image source type: " ++ srcType ++
        ". Use \"url\" or \"base64\".")

/-! ## Streaming translator (`streamResponse.ts`: `streamOpenAIToAnthropic`,
`calculateStreamUsage`; `pricingUtils.ts`: `calculateCacheCreationTokens`)

The upstream byte stream is modeled as a list of already-UTF-8-decoded
character chunks (`TextDecoder` in stream mode makes the decoded character
sequence a function of the concatenated bytes).  `JSON.parse` plus the
`parsed.choices?.[0]?.delta` / `parsed.usage` extraction is abstracted as a
function `parse : String → Option StreamFrame` (`none` = parse error); every
theorem below is proved for an arbitrary such function.  `Date.now()` is the
parameter `now`. -/

/-- JS truthiness of a string-or-absent value. -/
def jsTruthyStr : Option String → Bool
  | some s => s ≠ ""
  | none => false

/-- One `reasoning_details` entry.  `encrypted` is the truthiness of
`item?.encrypted`; `text` is `item.text` when it is a string. -/
structure RDItem where
  encrypted : Bool := false
  type : Option String := none
  text : Option String := none
  deriving DecidableEq, Repr

/-- One `delta.tool_calls` entry (`name`/`arguments` are
`toolCall.function?.name` / `toolCall.function?.arguments`). -/
structure ToolCallDelta where
  id : Option String := none
  name : Option String := none
  arguments : Option String := none
  deriving DecidableEq, Repr

/-- One `delta.annotations` entry (the `url_citation_*` fields flatten
`annotation.url_citation?.url` / `.title`). -/
structure UrlCitation where
  url_citation_url : Option String := none
  url_citation_title : Option String := none
  url : Option String := none
  title : Option String := none
  deriving DecidableEq, Repr

/-- A decoded `delta` object. -/
structure StreamDelta where
  reasoning : Option String := none
  reasoning_details : Option (List RDItem) := none
  tool_calls : Option (List ToolCallDelta) := none
  content : Option String := none
  annotations : Option (List UrlCitation) := none
  deriving DecidableEq, Repr

/-- A decoded `parsed.usage` object.  `cost = some none` is an explicit
`null` cost (assigned, clearing the accumulator); `cost = none` is an absent
field (not assigned). -/
structure StreamUsage where
  prompt_tokens : Option ℚ := none
  completion_tokens : Option ℚ := none
  reasoning_tokens : Option ℚ := none
  cached_tokens : Option ℚ := none
  cost : Option (Option ℚ) := none
  deriving DecidableEq, Repr

/-- A parsed `data:` frame: the extracted (truthy) `delta` and `usage`. -/
structure StreamFrame where
  delta : Option StreamDelta := none
  usage : Option StreamUsage := none
  deriving DecidableEq, Repr

/-- `ModelPricing` as used by `calculateCacheCreationTokens`, with the four
rates already `parseFloat`-parsed (`input_cache_read`/`input_cache_write`
default to 0 via `parseFloat(x || '0')`). -/
structure StreamPricing where
  prompt : ℚ := 0
  completion : ℚ := 0
  input_cache_read : ℚ := 0
  input_cache_write : ℚ := 0
  deriving DecidableEq, Repr

/-- The `usage` object of the final `message_delta`. -/
structure StreamFinalUsage where
  input_tokens : ℚ
  output_tokens : ℚ
  reasoning_tokens : ℚ
  cache_creation_input_tokens : ℤ
  cache_read_input_tokens : ℚ
  deriving DecidableEq, Repr

/-- The translated source-protocol SSE events, with the payload fields each
event's JSON carries. -/
inductive SSEEvent
  | message_start (messageId : String) (model : String)
  | content_block_start_text (index : ℕ)
  | content_block_start_thinking (index : ℕ)
  | content_block_start_redacted (index : ℕ)
  | content_block_start_tool_use (index : ℕ) (id : String) (name : Option String)
  | content_block_start_web_search (index : ℕ) (tool_use_id : String)
      (url : Option String) (title : Option String)
  | text_delta (index : ℕ) (text : String)
  | input_json_delta (index : ℕ) (pjson : String)
  | content_block_stop (index : ℕ)
  | message_delta (stop_reason : String) (usage : StreamFinalUsage)
  | message_stop
  deriving DecidableEq, Repr

/-- The mutable block-tracking closure state of `streamOpenAIToAnthropic`. -/
structure StreamBlockState where
  contentBlockIndex : ℕ := 0
  hasStartedTextBlock : Bool := false
  hasStartedThinkingBlock : Bool := false
  isToolUse : Bool := false
  currentToolCallId : Option String := none
  toolCallJsonMap : List (String × String) := []
  hasProcessedAnnotations : Bool := false
  deriving DecidableEq, Repr

/-- The mutable usage-accumulation closure state. -/
structure StreamUsageTotals where
  totalInputTokens : ℚ := 0
  totalOutputTokens : ℚ := 0
  totalReasoningTokens : ℚ := 0
  totalCacheReadTokens : ℚ := 0
  actualCost : Option ℚ := none
  deriving DecidableEq, Repr

/-- `Map.set`: replace in place or append. -/
def mapSet (m : List (String × String)) (k v : String) : List (String × String) :=
  if m.any (fun p => p.1 == k) then
    m.map fun p => if p.1 == k then (k, v) else p
  else m ++ [(k, v)]

/-- `Map.get`. -/
def mapGet (m : List (String × String)) (k : String) : Option String :=
  (m.find? fun p => p.1 == k).map (·.2)

/-- The `reasoning_details` item loop of `processStreamDelta`. -/
def processRDItems (st : StreamBlockState) :
    List RDItem → StreamBlockState × List SSEEvent
  | [] => (st, [])
  | item :: rest =>
    let (st1, evs) :=
      if item.encrypted || item.type == some "redacted" then
        let (stA, evsA) :=
          if st.hasStartedThinkingBlock then
            ({ st with hasStartedThinkingBlock := false },
              [SSEEvent.content_block_stop st.contentBlockIndex])
          else (st, [])
        let redIdx := stA.contentBlockIndex + 1
        ({ stA with contentBlockIndex := redIdx },
          evsA ++ [SSEEvent.content_block_start_redacted redIdx,
            SSEEvent.content_block_stop redIdx])
      else
        match item.text with
        | some s =>
          if s.length > 0 then
            if !st.hasStartedThinkingBlock then
              ({ st with hasStartedThinkingBlock := true },
                [SSEEvent.content_block_start_thinking st.contentBlockIndex,
                  SSEEvent.text_delta st.contentBlockIndex s])
            else (st, [SSEEvent.text_delta st.contentBlockIndex s])
          else (st, [])
        | none => (st, [])
    let (st2, evs2) := processRDItems st1 rest
    (st2, evs ++ evs2)

/-- The `delta.reasoning` / `delta.reasoning_details` section of
`processStreamDelta`. -/
def processReasoning (st : StreamBlockState) (delta : StreamDelta) :
    StreamBlockState × List SSEEvent :=
  if jsTruthyStr delta.reasoning || delta.reasoning_details.isSome then
    let (st1, evs0) :=
      if !st.hasStartedThinkingBlock then
        if st.isToolUse || st.hasStartedTextBlock then
          ({ st with
              isToolUse := false
              hasStartedTextBlock := false
              contentBlockIndex := st.contentBlockIndex + 1 },
            [SSEEvent.content_block_stop st.contentBlockIndex])
        else (st, [])
      else (st, [])
    let (st2, evs1) :=
      match delta.reasoning_details with
      | some items => processRDItems st1 items
      | none => (st1, [])
    let (st3, evs2) :=
      match delta.reasoning with
      | some s =>
        if s.length > 0 then
          if !st2.hasStartedThinkingBlock then
            ({ st2 with hasStartedThinkingBlock := true },
              [SSEEvent.content_block_start_thinking st2.contentBlockIndex,
                SSEEvent.text_delta st2.contentBlockIndex s])
          else (st2, [SSEEvent.text_delta st2.contentBlockIndex s])
        else (st2, [])
      | none => (st2, [])
    (st3, evs0 ++ evs1 ++ evs2)
  else (st, [])

/-- One `delta.tool_calls` entry of the tool-call loop. -/
def processOneToolCall (st : StreamBlockState) (tc : ToolCallDelta) :
    StreamBlockState × List SSEEvent :=
  let toolCallId := tc.id
  let (st1, evs0) :=
    if jsTruthyStr toolCallId && toolCallId != st.currentToolCallId then
      let evsA :=
        if st.isToolUse || st.hasStartedTextBlock then
          [SSEEvent.content_block_stop st.contentBlockIndex]
        else []
      let st1 := { st with
        isToolUse := true
        hasStartedTextBlock := false
        currentToolCallId := toolCallId
        contentBlockIndex := st.contentBlockIndex + 1
        toolCallJsonMap := mapSet st.toolCallJsonMap (toolCallId.getD "") "" }
      (st1, evsA ++ [SSEEvent.content_block_start_tool_use st1.contentBlockIndex
        (toolCallId.getD "") tc.name])
    else (st, [])
  let (st2, evs1) :=
    match tc.arguments with
    | some args =>
      if args ≠ "" ∧ jsTruthyStr st1.currentToolCallId then
        let currentJson :=
          (mapGet st1.toolCallJsonMap (st1.currentToolCallId.getD "")).getD ""
        ({ st1 with
            toolCallJsonMap :=
              mapSet st1.toolCallJsonMap (st1.currentToolCallId.getD "")
                (currentJson ++ args) },
          [SSEEvent.input_json_delta st1.contentBlockIndex args])
      else (st1, [])
    | none => (st1, [])
  (st2, evs0 ++ evs1)

/-- The tool-call loop. -/
def processToolCallList (st : StreamBlockState) :
    List ToolCallDelta → StreamBlockState × List SSEEvent
  | [] => (st, [])
  | tc :: rest =>
    let (st1, evs) := processOneToolCall st tc
    let (st2, evs2) := processToolCallList st1 rest
    (st2, evs ++ evs2)

/-- The `else if (delta.content)` text branch. -/
def processContentBranch (st : StreamBlockState) (delta : StreamDelta) :
    StreamBlockState × List SSEEvent :=
  match delta.content with
  | some s =>
    if s ≠ "" then
      let (st1, evs0) :=
        if st.hasStartedThinkingBlock then
          ({ st with
              hasStartedThinkingBlock := false
              contentBlockIndex := st.contentBlockIndex + 1 },
            [SSEEvent.content_block_stop st.contentBlockIndex])
        else (st, [])
      let (st2, evs1) :=
        if st1.isToolUse then
          ({ st1 with
              isToolUse := false
              currentToolCallId := none
              contentBlockIndex := st1.contentBlockIndex + 1 },
            [SSEEvent.content_block_stop st1.contentBlockIndex])
        else (st1, [])
      let (st3, evs2) :=
        if !st2.hasStartedTextBlock then
          ({ st2 with hasStartedTextBlock := true },
            [SSEEvent.content_block_start_text st2.contentBlockIndex])
        else (st2, [])
      (st3, evs0 ++ evs1 ++ evs2 ++ [SSEEvent.text_delta st3.contentBlockIndex s])
    else (st, [])
  | none => (st, [])

/-- The `delta.tool_calls?.length > 0` dispatch (falling back to the content
branch, as in the source's `if / else if`). -/
def processToolCallsOrContent (st : StreamBlockState) (delta : StreamDelta) :
    StreamBlockState × List SSEEvent :=
  match delta.tool_calls with
  | some tcs =>
    if tcs.length > 0 then
      let (st1, evs0) :=
        if st.hasStartedThinkingBlock then
          ({ st with
              hasStartedThinkingBlock := false
              contentBlockIndex := st.contentBlockIndex + 1 },
            [SSEEvent.content_block_stop st.contentBlockIndex])
        else (st, [])
      let (st2, evs1) := processToolCallList st1 tcs
      (st2, evs0 ++ evs1)
    else processContentBranch st delta
  | none => processContentBranch st delta

/-- The web-search annotation loop (`searchId` embeds `Date.now()` and the
current block index). -/
def processAnnotationList (now : ℕ) (st : StreamBlockState) :
    List UrlCitation → StreamBlockState × List SSEEvent
  | [] => (st, [])
  | ann :: rest =>
    let searchId := "srvtoolu_" ++ toString now ++ "_" ++ toString st.contentBlockIndex
    let url := if jsTruthyStr ann.url_citation_url then ann.url_citation_url else ann.url
    let title :=
      if jsTruthyStr ann.url_citation_title then ann.url_citation_title else ann.title
    let evs := [SSEEvent.content_block_start_web_search st.contentBlockIndex searchId
        url title,
      SSEEvent.content_block_stop st.contentBlockIndex]
    let (st2, evs2) := processAnnotationList now
      { st with contentBlockIndex := st.contentBlockIndex + 1 } rest
    (st2, evs ++ evs2)

/-- The one-shot `delta.annotations` section. -/
def processAnnotationsSection (now : ℕ) (st : StreamBlockState)
    (delta : StreamDelta) : StreamBlockState × List SSEEvent :=
  match delta.annotations with
  | some anns =>
    if !st.hasProcessedAnnotations then
      let st1 := { st with hasProcessedAnnotations := true }
      let (st2, evs0) :=
        if st1.isToolUse || st1.hasStartedTextBlock || st1.hasStartedThinkingBlock then
          ({ st1 with
              isToolUse := false
              hasStartedTextBlock := false
              hasStartedThinkingBlock := false
              contentBlockIndex := st1.contentBlockIndex + 1 },
            [SSEEvent.content_block_stop st1.contentBlockIndex])
        else (st1, [])
      let (st3, evs1) := processAnnotationList now st2 anns
      (st3, evs0 ++ evs1)
    else (st, [])
  | none => (st, [])

/-- `processStreamDelta(delta)`: the three sections in source order. -/
def processStreamDelta (now : ℕ) (st : StreamBlockState) (delta : StreamDelta) :
    StreamBlockState × List SSEEvent :=
  let (st1, evs1) := processReasoning st delta
  let (st2, evs2) := processToolCallsOrContent st1 delta
  let (st3, evs3) := processAnnotationsSection now st2 delta
  (st3, evs1 ++ evs2 ++ evs3)

/-- The JS `x || old` update for a numeric usage field (falsy values — absent,
0, `NaN` — keep the previous accumulator value). -/
def jsOrNum (v : Option ℚ) (old : ℚ) : ℚ :=
  match v with
  | some q => if q = 0 then old else q
  | none => old

/-- The usage-extraction block run on every frame carrying a (truthy)
`usage`. -/
def updateUsage (t : StreamUsageTotals) (u : StreamUsage) : StreamUsageTotals :=
  { totalInputTokens := jsOrNum u.prompt_tokens t.totalInputTokens
    totalOutputTokens := jsOrNum u.completion_tokens t.totalOutputTokens
    totalReasoningTokens := jsOrNum u.reasoning_tokens t.totalReasoningTokens
    totalCacheReadTokens := jsOrNum u.cached_tokens t.totalCacheReadTokens
    actualCost := match u.cost with
      | some c => c
      | none => t.actualCost }

/-- `calculateCacheCreationTokens` from `pricingUtils.ts`. -/
def calculateCacheCreationTokens (actualCost totalInputTokens outputTokens
    cacheReadTokens : ℚ) (pricing : StreamPricing) : ℤ :=
  let promptPrice := pricing.prompt
  let completionPrice := pricing.completion
  let cacheReadPrice := pricing.input_cache_read
  let cacheWritePrice := pricing.input_cache_write
  if promptPrice ≤ 0 ∨ completionPrice ≤ 0 ∨ cacheWritePrice ≤ 0 then 0
  else
    let baseCost := totalInputTokens * promptPrice + outputTokens * completionPrice
    let cacheReadAdjustment := cacheReadTokens * (cacheReadPrice - promptPrice)
    let remainingCostDifference := actualCost - baseCost - cacheReadAdjustment
    let cacheWriteAdjustment := cacheWritePrice - promptPrice
    if cacheWriteAdjustment > 0 then
      max 0 (jsRound (remainingCostDifference / cacheWriteAdjustment))
    else 0

/-- `calculateStreamUsage` (the streaming translator's final usage;
`pricing` is the cached-or-fetched `ModelPricing`, `none` when unavailable). -/
def calculateStreamUsage (totalInputTokens totalOutputTokens
    totalCacheReadTokens : ℚ) (actualCost : Option ℚ)
    (pricing : Option StreamPricing) (totalReasoningTokens : ℚ) :
    StreamFinalUsage :=
  let cacheCreationTokens : ℤ :=
    match actualCost with
    | some c =>
      if c ≠ 0 ∧ c > 0 then
        match pricing with
        | some p =>
          calculateCacheCreationTokens c totalInputTokens
            (totalOutputTokens + totalReasoningTokens) totalCacheReadTokens p
        | none => 0
      else 0
    | none => 0
  { input_tokens := totalInputTokens - totalCacheReadTokens
    output_tokens := totalOutputTokens
    reasoning_tokens := totalReasoningTokens
    cache_creation_input_tokens := cacheCreationTokens
    cache_read_input_tokens := totalCacheReadTokens }

/-- `buffer.split('\n')` with the last element popped back into the buffer:
the complete lines and the retained remainder. -/
def splitLines : List Char → List (List Char) × List Char
  | [] => ([], [])
  | c :: cs =>
    let (ls, rem) := splitLines cs
    if c = '\n' then ([] :: ls, rem)
    else
      match ls with
      | [] => ([], c :: rem)
      | l :: ls2 => ((c :: l) :: ls2, rem)

/-- `buffer.split('\n')` without popping (used on the final buffer). -/
def splitOnNewline : List Char → List (List Char)
  | [] => [[]]
  | c :: cs =>
    if c = '\n' then [] :: splitOnNewline cs
    else
      match splitOnNewline cs with
      | [] => [[c]]
      | l :: ls2 => (c :: l) :: ls2

/-- The combined translator state threaded through the read loop. -/
structure StreamLoopState where
  blocks : StreamBlockState := {}
  totals : StreamUsageTotals := {}
  deriving DecidableEq, Repr

/-- Main-loop handling of one complete line (usage update first, then delta
processing, under the shared try/catch). -/
def processLineMain (parse : String → Option StreamFrame) (now : ℕ)
    (st : StreamLoopState) (line : List Char) : StreamLoopState × List SSEEvent :=
  let s := String.mk line
  if s.trim ≠ "" ∧ s.startsWith "data: " then
    let data := (s.drop 6).trim
    if data = "[DONE]" then (st, [])
    else
      match parse data with
      | none => (st, [])
      | some parsed =>
        let totals := match parsed.usage with
          | some u => updateUsage st.totals u
          | none => st.totals
        match parsed.delta with
        | none => ({ st with totals := totals }, [])
        | some d =>
          let (blocks, evs) := processStreamDelta now st.blocks d
          ({ blocks := blocks, totals := totals }, evs)
  else (st, [])

/-- Done-branch handling of one line (delta processing first, then usage
update, as in the source's final-buffer block). -/
def processLineTail (parse : String → Option StreamFrame) (now : ℕ)
    (st : StreamLoopState) (line : List Char) : StreamLoopState × List SSEEvent :=
  let s := String.mk line
  if s.trim ≠ "" ∧ s.startsWith "data: " then
    let data := (s.drop 6).trim
    if data = "[DONE]" then (st, [])
    else
      match parse data with
      | none => (st, [])
      | some parsed =>
        let (blocks, evs) := match parsed.delta with
          | some d => processStreamDelta now st.blocks d
          | none => (st.blocks, [])
        let totals := match parsed.usage with
          | some u => updateUsage st.totals u
          | none => st.totals
        (({ blocks := blocks, totals := totals } : StreamLoopState), evs)
  else (st, [])

/-- Process a list of complete lines in order (main loop). -/
def processLinesMain (parse : String → Option StreamFrame) (now : ℕ)
    (st : StreamLoopState) : List (List Char) → StreamLoopState × List SSEEvent
  | [] => (st, [])
  | line :: rest =>
    let (st1, evs) := processLineMain parse now st line
    let (st2, evs2) := processLinesMain parse now st1 rest
    (st2, evs ++ evs2)

/-- Process the final buffer's lines in order (done branch). -/
def processLinesTail (parse : String → Option StreamFrame) (now : ℕ)
    (st : StreamLoopState) : List (List Char) → StreamLoopState × List SSEEvent
  | [] => (st, [])
  | line :: rest =>
    let (st1, evs) := processLineTail parse now st line
    let (st2, evs2) := processLinesTail parse now st1 rest
    (st2, evs ++ evs2)

/-- The per-read-iteration state: the line buffer plus the translator state. -/
structure SSEBufferState where
  buffer : List Char := []
  st : StreamLoopState := {}
  deriving DecidableEq, Repr

/-- One iteration of the read loop: append the chunk, split off complete
lines, process them in order. -/
def feedChunk (parse : String → Option StreamFrame) (now : ℕ)
    (bs : SSEBufferState) (chunk : List Char) : SSEBufferState × List SSEEvent :=
  let (lines, rem) := splitLines (bs.buffer ++ chunk)
  let (st, evs) := processLinesMain parse now bs.st lines
  ({ buffer := rem, st := st }, evs)

/-- Feed a list of chunks in order. -/
def feedAll (parse : String → Option StreamFrame) (now : ℕ)
    (bs : SSEBufferState) : List (List Char) → SSEBufferState × List SSEEvent
  | [] => (bs, [])
  | c :: cs =>
    let (bs1, e1) := feedChunk parse now bs c
    let (bs2, e2) := feedAll parse now bs1 cs
    (bs2, e1 ++ e2)

/-- Stream completion: process the remaining buffer (when its trim is
non-empty), close the open block, emit the final `message_delta` (with the
usage from `calculateStreamUsage`) and `message_stop`. -/
def finalizeStream (parse : String → Option StreamFrame) (now : ℕ)
    (pricing : Option StreamPricing) (bs : SSEBufferState) : List SSEEvent :=
  let (st, evs1) :=
    if (String.mk bs.buffer).trim ≠ "" then
      processLinesTail parse now bs.st (splitOnNewline bs.buffer)
    else (bs.st, [])
  let evs2 :=
    if st.blocks.isToolUse || st.blocks.hasStartedTextBlock ||
        st.blocks.hasStartedThinkingBlock then
      [SSEEvent.content_block_stop st.blocks.contentBlockIndex]
    else []
  evs1 ++ evs2 ++
    [SSEEvent.message_delta (if st.blocks.isToolUse then "tool_use" else "end_turn")
      (calculateStreamUsage st.totals.totalInputTokens st.totals.totalOutputTokens
        st.totals.totalCacheReadTokens st.totals.actualCost pricing
        st.totals.totalReasoningTokens),
    SSEEvent.message_stop]

/-- `streamOpenAIToAnthropic` as a function of the decoded upstream chunks:
the full translated event sequence. -/
def streamOpenAIToAnthropic (parse : String → Option StreamFrame) (now : ℕ)
    (model : String) (pricing : Option StreamPricing)
    (chunks : List (List Char)) : List SSEEvent :=
  let (bs, evs) := feedAll parse now {} chunks
  SSEEvent.message_start ("msg_" ++ toString now) model ::
    (evs ++ finalizeStream parse now pricing bs)

/-- The usage object a complete line contributes (spec-side: mirrors the
guards of the line handler but looks only at `parsed.usage`). -/
def lineUsage (parse : String → Option StreamFrame) (line : List Char) :
    Option StreamUsage :=
  let s := String.mk line
  if s.trim ≠ "" ∧ s.startsWith "data: " then
    let data := (s.drop 6).trim
    if data = "[DONE]" then none
    else
      match parse data with
      | none => none
      | some parsed => parsed.usage
  else none

/-- All lines the translator processes for a given chunk sequence: the
complete lines of the concatenated input, then (when its trim is non-empty)
the final buffer's lines. -/
def allProcessedLines (chunks : List (List Char)) : List (List Char) :=
  (splitLines chunks.flatten).1 ++
    (if (String.mk (splitLines chunks.flatten).2).trim ≠ "" then
      splitOnNewline (splitLines chunks.flatten).2
    else [])

/-- Event classifier for the uniqueness statement. -/
def isMessageDelta : SSEEvent → Bool
  | .message_delta _ _ => true
  | _ => false

/-- A concrete upstream usage: zero prompt tokens with a detailed 5-token 5m cache-write leg. -/
def upstreamDetailedOverflowUsage : UpstreamUsage :=
  { prompt_tokens := some 0
    cache_creation := some { ephemeral_5m_input_tokens := some 5 } }
/-- A concrete upstream usage whose cost overshoot forces the inferred estimation path. -/
def inferredBreakdownUsage : UpstreamUsage :=
  { prompt_tokens := some 10, completion_tokens := some 0, cost := some 20 }
/-- Unit per-token pricing used by concrete inputs. -/
def unitPricing : ModelPricing := { prompt := 1, completion := 1 }
/-- A concrete upstream usage carrying a detailed 5m/1h cache-write breakdown. -/
def detailedBreakdownUsage : UpstreamUsage :=
  { prompt_tokens := some 500, completion_tokens := some 100, cached_tokens := some 50
    cache_creation := some { ephemeral_5m_input_tokens := some 20
                             ephemeral_1h_input_tokens := some 30 } }
/-- Invariant relating the original loop context of `validateGo` to the emitted
context: whenever the original context is an assistant whose call list contains
a call matched by the head run of tool messages, the emitted context is a kept
assistant message still containing that call. -/
def PairInv (ctxOrig ctxOut : Option OpenAIMessage) (msgs : List OpenAIMessage) : Prop :=
  ∀ p, ctxOrig = some p → p.role = "assistant" → ∀ l, p.tool_calls = some l →
    ∀ tc ∈ l,
      ((msgs.takeWhile fun x => x.role == "tool").any fun tm =>
        tm.tool_call_id == tc.id) = true →
      ∃ p' l', ctxOut = some p' ∧ p'.role = "assistant" ∧ p'.tool_calls = some l' ∧ tc ∈ l'
/-- A concrete message list: an assistant with two tool calls, one answered. -/
def toolPairMessages : List OpenAIMessage :=
  [ { role := "assistant"
      tool_calls := some [{ id := some "call_1" }, { id := some "call_2" }] },
    { role := "tool", tool_call_id := some "call_1" } ]
/-- A concrete url-type image source. -/
def urlImageSource : ImageSource :=
  { type := some "url", url := some "https://example.com/a.png" }

end CCRouter

namespace CCRouter

theorem normaliseTokens_nonneg (v : Option ℚ) : 0 ≤ normaliseTokens v := by
  cases v with
  | none => simp [normaliseTokens]
  | some q =>
    simp only [normaliseTokens]
    split <;> omega

theorem clampWriteTokens_nonneg (w p : ℤ) (hp : 0 ≤ p) : 0 ≤ clampWriteTokens w p := by
  unfold clampWriteTokens
  split
  · omega
  · split <;> omega

theorem clampWriteTokens_le_prompt (w p : ℤ) (hp : 0 ≤ p) : clampWriteTokens w p ≤ p := by
  unfold clampWriteTokens
  split
  · omega
  · split <;> omega

theorem clampWriteTokens_eq_min (w p : ℤ) (hw : 0 ≤ w) : clampWriteTokens w p = min w p := by
  unfold clampWriteTokens
  split
  · omega
  · split
    · next h => exact (min_eq_right (le_of_lt h)).symm
    · next h => exact (min_eq_left (le_of_not_lt h)).symm

theorem determineCacheWriteNoBreakdown_bounds (t : CacheTtlMode) (p : ℤ)
    (r : PricingResolution) (a ci co cr s : Option ℚ) (hp : 0 ≤ p) :
    0 ≤ (determineCacheWriteNoBreakdown t p r a ci co cr s).writeTokens ∧
      (determineCacheWriteNoBreakdown t p r a ci co cr s).writeTokens ≤ p := by
  unfold determineCacheWriteNoBreakdown
  cases s with
  | some scalar =>
    exact ⟨clampWriteTokens_nonneg _ _ hp, clampWriteTokens_le_prompt _ _ hp⟩
  | none =>
    cases a with
    | none => simpa using hp
    | some actual =>
      cases ci with
      | none => simpa using hp
      | some costIn =>
        cases co with
        | none => simpa using hp
        | some costOut =>
          cases cr with
          | none => simpa using hp
          | some costRead =>
            dsimp only
            split
            · exact ⟨le_max_left 0 _, max_le hp (clampWriteTokens_le_prompt _ _ hp)⟩
            · simpa using hp

theorem determineCacheWriteNoBreakdown_source_ne_detailed (t : CacheTtlMode) (p : ℤ)
    (r : PricingResolution) (a ci co cr s : Option ℚ) :
    (determineCacheWriteNoBreakdown t p r a ci co cr s).estimationSource ≠
      .upstream_detailed := by
  unfold determineCacheWriteNoBreakdown
  cases s with
  | some scalar => simp
  | none =>
    cases a <;> cases ci <;> cases co <;> cases cr <;> dsimp only <;> (try split) <;> simp

theorem determineCacheWrite_eq_noBreakdown (t : CacheTtlMode) (p : ℤ)
    (r : PricingResolution) (a ci co cr : Option ℚ)
    (b : Option UpstreamCacheCreation) (s : Option ℚ)
    (h : (determineCacheWrite t p r a ci co cr b s).estimationSource ≠ .upstream_detailed) :
    determineCacheWrite t p r a ci co cr b s =
      determineCacheWriteNoBreakdown t p r a ci co cr s := by
  unfold determineCacheWrite at h ⊢
  cases b with
  | none => rfl
  | some bd =>
    by_cases hleg : bd.ephemeral_5m_input_tokens.isSome ∨ bd.ephemeral_1h_input_tokens.isSome
    · simp [hleg] at h
    · simp [hleg]

theorem determineCacheWrite_no_usable_breakdown (t : CacheTtlMode) (p : ℤ)
    (r : PricingResolution) (a ci co cr : Option ℚ)
    (b : Option UpstreamCacheCreation) (s : Option ℚ)
    (hnd : ∀ bd, b = some bd →
      bd.ephemeral_5m_input_tokens = none ∧ bd.ephemeral_1h_input_tokens = none) :
    determineCacheWrite t p r a ci co cr b s =
      determineCacheWriteNoBreakdown t p r a ci co cr s := by
  cases b with
  | none => rfl
  | some bd =>
    obtain ⟨h5, h1⟩ := hnd bd rfl
    simp [determineCacheWrite, h5, h1]

theorem determineCacheWrite_bounds (t : CacheTtlMode) (p : ℤ)
    (r : PricingResolution) (a ci co cr : Option ℚ)
    (b : Option UpstreamCacheCreation) (s : Option ℚ) (hp : 0 ≤ p)
    (h : (determineCacheWrite t p r a ci co cr b s).estimationSource ≠ .upstream_detailed) :
    0 ≤ (determineCacheWrite t p r a ci co cr b s).writeTokens ∧
      (determineCacheWrite t p r a ci co cr b s).writeTokens ≤ p := by
  rw [determineCacheWrite_eq_noBreakdown t p r a ci co cr b s h]
  exact determineCacheWriteNoBreakdown_bounds t p r a ci co cr s hp

theorem determineCacheWrite_detailed (t : CacheTtlMode) (p : ℤ)
    (r : PricingResolution) (a ci co cr : Option ℚ)
    (b : Option UpstreamCacheCreation) (s : Option ℚ) (bd : UpstreamCacheCreation)
    (hbd : b = some bd)
    (hleg : bd.ephemeral_5m_input_tokens.isSome ∨ bd.ephemeral_1h_input_tokens.isSome) :
    (determineCacheWrite t p r a ci co cr b s).estimationSource = .upstream_detailed ∧
      (determineCacheWrite t p r a ci co cr b s).writeTokens =
        normaliseTokens bd.ephemeral_5m_input_tokens +
          normaliseTokens bd.ephemeral_1h_input_tokens := by
  subst hbd
  simp only [determineCacheWrite]
  rw [if_pos hleg]
  refine ⟨rfl, ?_⟩
  have h5 := normaliseTokens_nonneg bd.ephemeral_5m_input_tokens
  have h1 := normaliseTokens_nonneg bd.ephemeral_1h_input_tokens
  dsimp only
  omega

theorem determineCacheWrite_detailed_writeTokens (t : CacheTtlMode) (p : ℤ)
    (r : PricingResolution) (a ci co cr : Option ℚ)
    (b : Option UpstreamCacheCreation) (s : Option ℚ)
    (h : (determineCacheWrite t p r a ci co cr b s).estimationSource = .upstream_detailed) :
    (determineCacheWrite t p r a ci co cr b s).writeTokens =
      normaliseTokens (b.bind (·.ephemeral_5m_input_tokens)) +
        normaliseTokens (b.bind (·.ephemeral_1h_input_tokens)) := by
  cases b with
  | none =>
    exact absurd h (determineCacheWriteNoBreakdown_source_ne_detailed t p r a ci co cr s)
  | some bd =>
    by_cases hleg : bd.ephemeral_5m_input_tokens.isSome ∨ bd.ephemeral_1h_input_tokens.isSome
    · simpa using (determineCacheWrite_detailed t p r a ci co cr (some bd) s bd rfl hleg).2
    · rw [determineCacheWrite_no_usable_breakdown] at h
      · exact absurd h (determineCacheWriteNoBreakdown_source_ne_detailed t p r a ci co cr s)
      · intro bd2 hbd2
        rw [Option.some_inj] at hbd2
        subst hbd2
        push_neg at hleg
        exact ⟨Option.not_isSome_iff_eq_none.mp hleg.1, Option.not_isSome_iff_eq_none.mp hleg.2⟩

theorem determineCacheWrite_writeTokens_nonneg (t : CacheTtlMode) (p : ℤ)
    (r : PricingResolution) (a ci co cr : Option ℚ)
    (b : Option UpstreamCacheCreation) (s : Option ℚ) (hp : 0 ≤ p) :
    0 ≤ (determineCacheWrite t p r a ci co cr b s).writeTokens := by
  by_cases h : (determineCacheWrite t p r a ci co cr b s).estimationSource = .upstream_detailed
  · rw [determineCacheWrite_detailed_writeTokens t p r a ci co cr b s h]
    have h5 := normaliseTokens_nonneg (b.bind (·.ephemeral_5m_input_tokens))
    have h1 := normaliseTokens_nonneg (b.bind (·.ephemeral_1h_input_tokens))
    omega
  · exact (determineCacheWrite_bounds t p r a ci co cr b s hp h).1

theorem determineCacheWriteNoBreakdown_simple (t : CacheTtlMode) (p : ℤ)
    (r : PricingResolution) (a ci co cr : Option ℚ) (q : ℚ) :
    (determineCacheWriteNoBreakdown t p r a ci co cr (some q)).estimationSource =
        .upstream_simple ∧
      (determineCacheWriteNoBreakdown t p r a ci co cr (some q)).writeTokens =
        min (normaliseTokens (some q)) p := by
  refine ⟨rfl, ?_⟩
  show clampWriteTokens (normaliseTokens (some q)) p = _
  exact clampWriteTokens_eq_min _ _ (normaliseTokens_nonneg _)

theorem determineCacheWriteNoBreakdown_inferred (t : CacheTtlMode) (p : ℤ)
    (r : PricingResolution) (av c1 c2 c3 : ℚ)
    (hrate : 0 < deriveWriteRate t r.promptRate) :
    (determineCacheWriteNoBreakdown t p r (some av) (some c1) (some c2) (some c3)
        none).estimationSource = .inferred := by
  unfold determineCacheWriteNoBreakdown
  dsimp only
  rw [if_pos hrate]

theorem determineCacheWriteNoBreakdown_unavailable (t : CacheTtlMode) (p : ℤ)
    (r : PricingResolution) (a ci co cr : Option ℚ)
    (hmiss : a = none ∨ ci = none ∨ co = none ∨ cr = none) :
    (determineCacheWriteNoBreakdown t p r a ci co cr none).estimationSource =
        .unavailable ∧
      (determineCacheWriteNoBreakdown t p r a ci co cr none).writeTokens = 0 ∧
      (a = none →
        "missing_actual_cost" ∈ (determineCacheWriteNoBreakdown t p r a ci co cr none).estimationNotes) ∧
      ((ci = none ∨ co = none ∨ cr = none) →
        "missing_pricing" ∈ (determineCacheWriteNoBreakdown t p r a ci co cr none).estimationNotes) := by
  cases a <;> cases ci <;> cases co <;> cases cr <;>
    simp_all [determineCacheWriteNoBreakdown]

theorem deriveWriteRate_pos (t : CacheTtlMode) (pr : ℚ) (h : 0 < pr) :
    0 < deriveWriteRate t pr := by
  unfold deriveWriteRate
  rw [if_neg (not_le.mpr h)]
  cases t <;> exact mul_pos h (by norm_num)

theorem buildCacheCreationBreakdown_allowField_iff (src : EstimationSource)
    (t : CacheTtlMode) (w : ℤ) (b : Option UpstreamCacheCreation) :
    (buildCacheCreationBreakdown src t w b).allowField = true ↔
      (src = .upstream_detailed ∨ (src = .inferred ∧ t ≠ .mixed)) := by
  cases src <;> cases t <;> simp [buildCacheCreationBreakdown]

theorem cacheCreation_legs_ok (t : CacheTtlMode) (d : CacheWriteDecision)
    (b : Option UpstreamCacheCreation)
    (hdet : d.estimationSource = .upstream_detailed →
      d.writeTokens = normaliseTokens (b.bind (·.ephemeral_5m_input_tokens)) +
        normaliseTokens (b.bind (·.ephemeral_1h_input_tokens)))
    (hw : 0 ≤ d.writeTokens) (x y : ℤ)
    (h : (if (buildCacheCreationBreakdown d.estimationSource t d.writeTokens b).allowField then
        some ((buildCacheCreationBreakdown d.estimationSource t d.writeTokens b).breakdown.getD
          { ephemeral_5m_input_tokens := 0, ephemeral_1h_input_tokens := 0 })
      else none) = some { ephemeral_5m_input_tokens := x, ephemeral_1h_input_tokens := y }) :
    0 ≤ x ∧ 0 ≤ y ∧ x + y = d.writeTokens := by
  cases hs : d.estimationSource <;> cases t <;>
    simp [buildCacheCreationBreakdown, hs] at h <;>
    first
      | (obtain ⟨hx, hy⟩ := h
         have h5 := normaliseTokens_nonneg (b.bind (·.ephemeral_5m_input_tokens))
         have h1 := normaliseTokens_nonneg (b.bind (·.ephemeral_1h_input_tokens))
         have := hdet hs
         omega)
      | (obtain ⟨hx, hy⟩ := h; omega)

end CCRouter

namespace CCRouter

theorem resolvePricing_readRate_pos (p : Option ModelPricing)
    (h : 0 < (resolvePricing p).promptRate) : 0 < (resolvePricing p).readRate := by
  have hq : (resolvePricing p).readRate =
      if 0 < (resolvePricing p).promptRate then (resolvePricing p).promptRate * (1/10)
      else 0 := rfl
  rw [hq, if_pos h]
  exact mul_pos h (by norm_num)

theorem ite_allow_ne_none (pl : BreakdownPayload) (x : PublicCacheCreation) :
    ((if pl.allowField then some (pl.breakdown.getD x) else none) ≠ none) ↔
      pl.allowField = true := by
  by_cases h : pl.allowField = true <;> simp [h]

/-- C1 (amended): on every cache-write determination path other than
`upstream_detailed` (that is, `upstream_simple`, `inferred` and `unavailable`),
the `cache_creation_input_tokens` surfaced in the billing result's usage is a
non-negative integer that never exceeds the request's normalised
`prompt_tokens`.  (The `upstream_detailed` path trusts the upstream breakdown
verbatim and does not clamp against `prompt_tokens`; see the counterexample.) -/
theorem cacheWrite_clamped_on_non_detailed_paths (u : UpstreamUsage)
    (md : Option CacheControlMetadata) (p : Option ModelPricing)
    (h : (computeUsageMetrics (some u) md p).estimation.source ≠ .upstream_detailed) :
    0 ≤ (computeUsageMetrics (some u) md p).usage.cache_creation_input_tokens ∧
      (computeUsageMetrics (some u) md p).usage.cache_creation_input_tokens ≤
        normaliseTokens u.prompt_tokens := by
  unfold computeUsageMetrics at h ⊢
  dsimp only [Option.getD_some] at h ⊢
  exact determineCacheWrite_bounds _ _ _ _ _ _ _ _ _ (normaliseTokens_nonneg _) h


/-- C1 counterexample: on the `upstream_detailed` path the surfaced
`cache_creation_input_tokens` can exceed the request's normalised
`prompt_tokens`: an upstream usage with `prompt_tokens = 0` and
`cache_creation.ephemeral_5m_input_tokens = 5` yields 5 > 0. -/
theorem cacheWrite_clamp_fails_on_upstream_detailed :
    (computeUsageMetrics (some upstreamDetailedOverflowUsage) none
        none).usage.cache_creation_input_tokens = 5 ∧
      normaliseTokens upstreamDetailedOverflowUsage.prompt_tokens = 0 ∧
      ¬((computeUsageMetrics (some upstreamDetailedOverflowUsage) none
          none).usage.cache_creation_input_tokens ≤
        normaliseTokens upstreamDetailedOverflowUsage.prompt_tokens) := by
  norm_num [computeUsageMetrics, determineCacheWrite, upstreamDetailedOverflowUsage,
    normaliseTokens, jsRound, resolvePricing, buildCacheCreationBreakdown]

/-- C1 witness: the amended clamp theorem applied at a concrete input (an
empty upstream usage, which takes the `unavailable` path). -/
theorem cacheWrite_clamped_on_non_detailed_paths_witness :
    0 ≤ (computeUsageMetrics (some {}) none none).usage.cache_creation_input_tokens ∧
      (computeUsageMetrics (some {}) none none).usage.cache_creation_input_tokens ≤
        normaliseTokens ({} : UpstreamUsage).prompt_tokens :=
  cacheWrite_clamped_on_non_detailed_paths {} none none (by
    norm_num [computeUsageMetrics, determineCacheWrite, determineCacheWriteNoBreakdown,
      resolvePricing]
    all_goals decide)

/-- C2: `computeUsageMetrics` selects the cache-write source in a fixed
priority order: (1) if `usage.cache_creation` has either ephemeral leg defined,
the source is `upstream_detailed` and the write tokens are the sum of the two
normalised legs; (2) otherwise, if the scalar `cache_creation_input_tokens` is
present, the source is `upstream_simple` and that scalar (normalised, then
clamped to at most `prompt_tokens`) is used; (3) otherwise, if a cost is
present and the prompt and completion rates resolve to positive values, the
source is `inferred`; (4) otherwise the source is `unavailable`, the write
tokens are 0, and a diagnostic note names the specific missing input
(`missing_actual_cost` / `missing_pricing`). -/
theorem cacheWrite_source_priority (u : UpstreamUsage)
    (md : Option CacheControlMetadata) (p : Option ModelPricing) :
    (∀ bd, u.cache_creation = some bd →
      (bd.ephemeral_5m_input_tokens.isSome ∨ bd.ephemeral_1h_input_tokens.isSome) →
      (computeUsageMetrics (some u) md p).estimation.source = .upstream_detailed ∧
        (computeUsageMetrics (some u) md p).usage.cache_creation_input_tokens =
          normaliseTokens bd.ephemeral_5m_input_tokens +
            normaliseTokens bd.ephemeral_1h_input_tokens) ∧
    ((∀ bd, u.cache_creation = some bd →
        bd.ephemeral_5m_input_tokens = none ∧ bd.ephemeral_1h_input_tokens = none) →
      ∀ q, u.cache_creation_input_tokens = some q →
      (computeUsageMetrics (some u) md p).estimation.source = .upstream_simple ∧
        (computeUsageMetrics (some u) md p).usage.cache_creation_input_tokens =
          min (normaliseTokens (some q)) (normaliseTokens u.prompt_tokens)) ∧
    ((∀ bd, u.cache_creation = some bd →
        bd.ephemeral_5m_input_tokens = none ∧ bd.ephemeral_1h_input_tokens = none) →
      u.cache_creation_input_tokens = none → u.cost.isSome →
      0 < (resolvePricing p).promptRate → 0 < (resolvePricing p).completionRate →
      (computeUsageMetrics (some u) md p).estimation.source = .inferred) ∧
    ((∀ bd, u.cache_creation = some bd →
        bd.ephemeral_5m_input_tokens = none ∧ bd.ephemeral_1h_input_tokens = none) →
      u.cache_creation_input_tokens = none →
      ¬(u.cost.isSome ∧ 0 < (resolvePricing p).promptRate ∧
          0 < (resolvePricing p).completionRate) →
      (computeUsageMetrics (some u) md p).estimation.source = .unavailable ∧
        (computeUsageMetrics (some u) md p).usage.cache_creation_input_tokens = 0 ∧
        (u.cost = none →
          "missing_actual_cost" ∈ (computeUsageMetrics (some u) md p).estimation.notes) ∧
        (¬(0 < (resolvePricing p).promptRate ∧ 0 < (resolvePricing p).completionRate) →
          "missing_pricing" ∈ (computeUsageMetrics (some u) md p).estimation.notes)) := by
  refine ⟨?_, ?_, ?_, ?_⟩
  · intro bd hbd hleg
    unfold computeUsageMetrics
    dsimp only [Option.getD_some]
    exact determineCacheWrite_detailed _ _ _ _ _ _ _ _ _ bd hbd hleg
  · intro hnd q hq
    unfold computeUsageMetrics
    dsimp only [Option.getD_some]
    rw [determineCacheWrite_no_usable_breakdown _ _ _ _ _ _ _ _ _ hnd, hq]
    exact determineCacheWriteNoBreakdown_simple _ _ _ _ _ _ _ q
  · intro hnd hs hcost hpr hcr
    unfold computeUsageMetrics
    dsimp only [Option.getD_some]
    rw [determineCacheWrite_no_usable_breakdown _ _ _ _ _ _ _ _ _ hnd, hs]
    obtain ⟨c, hc⟩ := Option.isSome_iff_exists.mp hcost
    rw [hc, if_pos hpr, if_pos hcr, if_pos (resolvePricing_readRate_pos p hpr)]
    exact determineCacheWriteNoBreakdown_inferred _ _ _ _ _ _ _
      (deriveWriteRate_pos _ _ hpr)
  · intro hnd hs hmiss
    unfold computeUsageMetrics
    dsimp only [Option.getD_some]
    rw [determineCacheWrite_no_usable_breakdown _ _ _ _ _ _ _ _ _ hnd, hs]
    have hdis : u.cost = none ∨ ¬ 0 < (resolvePricing p).promptRate ∨
        ¬ 0 < (resolvePricing p).completionRate := by
      by_contra hcon
      push_neg at hcon
      exact hmiss ⟨Option.ne_none_iff_isSome.mp hcon.1, hcon.2.1, hcon.2.2⟩
    have hmiss2 : u.cost = none ∨
        (if (resolvePricing p).promptRate > 0 then
          some ((max 0 (normaliseTokens u.prompt_tokens - normaliseTokens u.cached_tokens) : ℤ)
            * (resolvePricing p).promptRate) else none) = none ∨
        (if (resolvePricing p).completionRate > 0 then
          some ((normaliseTokens u.completion_tokens : ℤ) * (resolvePricing p).completionRate)
          else none) = none ∨
        (if (resolvePricing p).readRate > 0 then
          some ((normaliseTokens u.cached_tokens : ℤ) * (resolvePricing p).readRate)
          else none) = none := by
      rcases hdis with h0 | h0 | h0
      · exact Or.inl h0
      · exact Or.inr (Or.inl (if_neg h0))
      · exact Or.inr (Or.inr (Or.inl (if_neg h0)))
    obtain ⟨hsrc, hwt, hmac, hmp⟩ :=
      determineCacheWriteNoBreakdown_unavailable _ _ _ _ _ _ _ hmiss2
    refine ⟨hsrc, hwt, hmac, ?_⟩
    intro hpc
    apply hmp
    rcases not_and_or.mp hpc with h0 | h0
    · exact Or.inl (if_neg h0)
    · exact Or.inr (Or.inl (if_neg h0))

end CCRouter

namespace CCRouter



/-- C2 witness: the priority theorem's inferred conjunct applied at a concrete
input (cost present, positive rates, no upstream cache-write information). -/
theorem cacheWrite_source_priority_witness :
    (computeUsageMetrics (some inferredBreakdownUsage) none
      (some unitPricing)).estimation.source = .inferred :=
  (cacheWrite_source_priority inferredBreakdownUsage none (some unitPricing)).2.2.1
    (fun bd hbd => by simp [inferredBreakdownUsage] at hbd) rfl rfl
    (by norm_num [resolvePricing, unitPricing]) (by norm_num [resolvePricing, unitPricing])

/-- C9 counterexample: the `inferred` path (with a pure-5m TTL) also
republishes a public `cache_creation` breakdown, so `upstream_detailed` is not
the only determination path with a non-null published breakdown. -/
theorem breakdown_published_on_non_detailed_path :
    (computeUsageMetrics (some inferredBreakdownUsage) none
        (some unitPricing)).estimation.source = .inferred ∧
      (computeUsageMetrics (some inferredBreakdownUsage) none
        (some unitPricing)).usage.cache_creation ≠ none := by
  norm_num [computeUsageMetrics, determineCacheWrite, determineCacheWriteNoBreakdown,
    buildCacheCreationBreakdown, resolvePricing, inferredBreakdownUsage, unitPricing,
    normaliseTokens, jsRound, deriveWriteRate, clampWriteTokens]
  all_goals decide

/-- C9 (amended): the billing result republishes a public `cache_creation`
breakdown exactly when the determination source is `upstream_detailed`, or the
source is `inferred` and the TTL mode is not `mixed`; on every other path
(`upstream_simple`, `unavailable`, and `inferred` under a `mixed` TTL) the
published breakdown field is null.  `upstream_detailed` remains the only path
republishing an upstream-supplied breakdown. -/
theorem breakdown_republished_iff (u : UpstreamUsage) (md : Option CacheControlMetadata)
    (p : Option ModelPricing) :
    (computeUsageMetrics (some u) md p).usage.cache_creation ≠ none ↔
      ((computeUsageMetrics (some u) md p).estimation.source = .upstream_detailed ∨
        ((computeUsageMetrics (some u) md p).estimation.source = .inferred ∧
          (computeUsageMetrics (some u) md p).estimation.ttlMode ≠ .mixed)) := by
  unfold computeUsageMetrics
  dsimp only [Option.getD_some]
  rw [ite_allow_ne_none, buildCacheCreationBreakdown_allowField_iff]

/-- C10: whenever the billing result's `usage.cache_creation` field is
non-null, both of its legs are non-negative and their sum equals the returned
`usage.cache_creation_input_tokens`. -/
theorem cacheCreation_breakdown_sums (u : UpstreamUsage) (md : Option CacheControlMetadata)
    (p : Option ModelPricing) (x y : ℤ)
    (h : (computeUsageMetrics (some u) md p).usage.cache_creation =
      some { ephemeral_5m_input_tokens := x, ephemeral_1h_input_tokens := y }) :
    0 ≤ x ∧ 0 ≤ y ∧
      x + y = (computeUsageMetrics (some u) md p).usage.cache_creation_input_tokens := by
  unfold computeUsageMetrics at h ⊢
  dsimp only [Option.getD_some] at h ⊢
  exact cacheCreation_legs_ok _ _ _
    (determineCacheWrite_detailed_writeTokens _ _ _ _ _ _ _ _ _)
    (determineCacheWrite_writeTokens_nonneg _ _ _ _ _ _ _ _ _ (normaliseTokens_nonneg _))
    x y h


/-- C10 witness: the breakdown-sum theorem applied at a concrete input with an
upstream detailed breakdown of 20/30. -/
theorem cacheCreation_breakdown_sums_witness :
    0 ≤ (20 : ℤ) ∧ 0 ≤ (30 : ℤ) ∧
      (20 : ℤ) + 30 = (computeUsageMetrics (some detailedBreakdownUsage) none
        none).usage.cache_creation_input_tokens :=
  cacheCreation_breakdown_sums detailedBreakdownUsage none none 20 30 (by
    norm_num [computeUsageMetrics, determineCacheWrite, buildCacheCreationBreakdown,
      resolvePricing, detailedBreakdownUsage, normaliseTokens, jsRound])

end CCRouter

namespace CCRouter

theorem mem_addTtl (l : List Ttl) (t' t : Ttl) :
    t ∈ addTtl l t' ↔ t ∈ l ∨ t = t' := by
  unfold addTtl
  split
  · next h =>
    constructor
    · exact Or.inl
    · rintro (h1 | rfl)
      · exact h1
      · exact h
  · simp

theorem recordCacheControl_mem_explicit (st : CollectState) (cc : Option CacheControl)
    (origin : String) (t : Ttl) :
    t ∈ (recordCacheControl st cc origin).explicit ↔
      t ∈ st.explicit ∨ ccIsMarker (fun x => x = some t) cc = true := by
  cases cc with
  | none => simp [recordCacheControl, ccIsMarker]
  | some c =>
    by_cases htype : c.type = "ephemeral"
    · simp only [recordCacheControl, htype, ne_eq, not_true_eq_false, if_false]
      cases hn : normalizeTtlRaw c.ttl with
      | some t' =>
        simp [ccIsMarker, htype, hn, mem_addTtl]
        constructor
        · rintro (h | rfl)
          · exact Or.inl h
          · exact Or.inr rfl
        · rintro (h | rfl)
          · exact Or.inl h
          · exact Or.inr rfl
      | none => simp [ccIsMarker, htype, hn]
    · simp [recordCacheControl, htype, ccIsMarker]

theorem recordCacheControl_saw (st : CollectState) (cc : Option CacheControl)
    (origin : String) :
    (recordCacheControl st cc origin).sawEphemeralWithoutTtl = true ↔
      st.sawEphemeralWithoutTtl = true ∨ ccIsMarker (fun x => x = none) cc = true := by
  cases cc with
  | none => simp [recordCacheControl, ccIsMarker]
  | some c =>
    by_cases htype : c.type = "ephemeral"
    · simp only [recordCacheControl, htype, ne_eq, not_true_eq_false, if_false]
      cases hn : normalizeTtlRaw c.ttl with
      | some t' => simp [ccIsMarker, htype, hn]
      | none => simp [ccIsMarker, htype, hn]
    · simp [recordCacheControl, htype, ccIsMarker]

theorem collectParts_mem_explicit (origin : String) (t : Ttl) :
    ∀ (parts : List (Option ContentPart)) (st : CollectState) (idx : ℕ),
    t ∈ (collectParts origin st idx parts).explicit ↔
      t ∈ st.explicit ∨
        (parts.any fun p =>
          match p with
          | some pp => ccIsMarker (fun x => x = some t) pp.cache_control
          | none => false) = true := by
  intro parts
  induction parts with
  | nil => simp [collectParts]
  | cons part rest ih =>
    intro st idx
    cases part with
    | none =>
      simp only [collectParts, ih, List.any_cons]
      simp
    | some pp =>
      simp only [collectParts, ih, List.any_cons]
      rw [recordCacheControl_mem_explicit]
      simp [or_assoc]

theorem collectParts_saw (origin : String) :
    ∀ (parts : List (Option ContentPart)) (st : CollectState) (idx : ℕ),
    (collectParts origin st idx parts).sawEphemeralWithoutTtl = true ↔
      st.sawEphemeralWithoutTtl = true ∨
        (parts.any fun p =>
          match p with
          | some pp => ccIsMarker (fun x => x = none) pp.cache_control
          | none => false) = true := by
  intro parts
  induction parts with
  | nil => simp [collectParts]
  | cons part rest ih =>
    intro st idx
    cases part with
    | none =>
      simp only [collectParts, ih, List.any_cons]
      simp
    | some pp =>
      simp only [collectParts, ih, List.any_cons]
      rw [recordCacheControl_saw]
      simp [or_assoc]

theorem inspectContentParts_mem_explicit (st : CollectState) (content : ContentVal)
    (origin : String) (t : Ttl) :
    t ∈ (inspectContentParts st content origin).explicit ↔
      t ∈ st.explicit ∨ contentHasMarker (fun x => x = some t) content = true := by
  cases content with
  | null => simp [inspectContentParts, contentHasMarker]
  | arr parts =>
    simp only [inspectContentParts, contentHasMarker]
    exact collectParts_mem_explicit origin t parts st 0
  | obj part =>
    simp only [inspectContentParts, contentHasMarker]
    exact recordCacheControl_mem_explicit st part.cache_control _ t
  | prim => simp [inspectContentParts, contentHasMarker]

theorem inspectContentParts_saw (st : CollectState) (content : ContentVal)
    (origin : String) :
    (inspectContentParts st content origin).sawEphemeralWithoutTtl = true ↔
      st.sawEphemeralWithoutTtl = true ∨
        contentHasMarker (fun x => x = none) content = true := by
  cases content with
  | null => simp [inspectContentParts, contentHasMarker]
  | arr parts =>
    simp only [inspectContentParts, contentHasMarker]
    exact collectParts_saw origin parts st 0
  | obj part =>
    simp only [inspectContentParts, contentHasMarker]
    exact recordCacheControl_saw st part.cache_control _
  | prim => simp [inspectContentParts, contentHasMarker]

theorem collectItems_mem_explicit (originPre : String) (t : Ttl) :
    ∀ (items : List BodyMessage) (st : CollectState) (idx : ℕ),
    t ∈ (collectItems originPre st idx items).explicit ↔
      t ∈ st.explicit ∨
        (items.any (itemHasMarker (fun x => x = some t))) = true := by
  intro items
  induction items with
  | nil => simp [collectItems]
  | cons m rest ih =>
    intro st idx
    simp only [collectItems, ih, List.any_cons]
    rw [inspectContentParts_mem_explicit, recordCacheControl_mem_explicit]
    simp [itemHasMarker, or_assoc]

theorem collectItems_saw (originPre : String) :
    ∀ (items : List BodyMessage) (st : CollectState) (idx : ℕ),
    (collectItems originPre st idx items).sawEphemeralWithoutTtl = true ↔
      st.sawEphemeralWithoutTtl = true ∨
        (items.any (itemHasMarker (fun x => x = none))) = true := by
  intro items
  induction items with
  | nil => simp [collectItems]
  | cons m rest ih =>
    intro st idx
    simp only [collectItems, ih, List.any_cons]
    rw [inspectContentParts_saw, recordCacheControl_saw]
    simp [itemHasMarker, or_assoc]

theorem collectBodyState_mem_explicit (body : RequestBody) (t : Ttl) :
    t ∈ (collectBodyState body).explicit ↔ seenExplicit t body = true := by
  unfold collectBodyState seenExplicit bodyHasMarker
  cases hm : body.messages with
  | some msgs =>
    rw [collectItems_mem_explicit]
    cases hs : body.system <;>
      simp [collectItems_mem_explicit, inspectContentParts_mem_explicit,
        recordCacheControl_mem_explicit, itemHasMarker]
  | none =>
    cases hs : body.system <;>
      simp [collectItems_mem_explicit, inspectContentParts_mem_explicit,
        recordCacheControl_mem_explicit, itemHasMarker]

theorem collectBodyState_saw (body : RequestBody) :
    (collectBodyState body).sawEphemeralWithoutTtl = true ↔
      seenUntyped body = true := by
  unfold collectBodyState seenUntyped bodyHasMarker
  cases hm : body.messages with
  | some msgs =>
    rw [collectItems_saw]
    cases hs : body.system <;>
      simp [collectItems_saw, inspectContentParts_saw, recordCacheControl_saw,
        itemHasMarker]
  | none =>
    cases hs : body.system <;>
      simp [collectItems_saw, inspectContentParts_saw, recordCacheControl_saw,
        itemHasMarker]

/-- C5: TTL-mode classification — for every request body the derived `ttlMode`
is `mixed` exactly when an explicit 1h marker was seen together with an
explicit 5m marker or an untyped ephemeral marker; it is `ephemeral_1h` exactly
when 1h markers were seen and neither explicit 5m nor untyped markers; and in
every other case (including no cache-control annotations at all) it is
`ephemeral_5m`. -/
theorem ttl_mode_classification (body : RequestBody) :
    ((collectCacheControlMetadata body).ttlMode = .mixed ↔
      (seenExplicit .t1h body = true ∧
        (seenExplicit .t5m body = true ∨ seenUntyped body = true))) ∧
    ((collectCacheControlMetadata body).ttlMode = .ephemeral_1h ↔
      (seenExplicit .t1h body = true ∧
        ¬(seenExplicit .t5m body = true ∨ seenUntyped body = true))) ∧
    ((collectCacheControlMetadata body).ttlMode = .ephemeral_5m ↔
      ¬(seenExplicit .t1h body = true)) := by
  have h1 := collectBodyState_mem_explicit body .t1h
  have h5 := collectBodyState_mem_explicit body .t5m
  have hu := collectBodyState_saw body
  unfold collectCacheControlMetadata
  dsimp only
  cases hb1 : seenExplicit .t1h body <;> cases hb5 : seenExplicit .t5m body <;>
    cases hbu : seenUntyped body <;>
    simp_all

end CCRouter

namespace CCRouter


theorem takeWhile_all_append (p : OpenAIMessage → Bool) (ts z : List OpenAIMessage)
    (h : ∀ x ∈ ts, p x = true) :
    (ts ++ z).takeWhile p = ts ++ z.takeWhile p := by
  induction ts with
  | nil => simp
  | cons t ts ih =>
    have ht : p t = true := h t (by simp)
    simp only [List.cons_append, List.takeWhile_cons, ht, if_true]
    rw [ih fun x hx => h x (by simp [hx])]

theorem validateGo_tools (ts : List OpenAIMessage) :
    ∀ (ctx : Option OpenAIMessage) (rest : List OpenAIMessage),
    (∀ x ∈ ts, x.role = "tool") →
    validateGo ctx (ts ++ rest) =
      ts.filter (fun tm => hasImmediateToolCall ctx tm.tool_call_id) ++
        validateGo ctx rest := by
  induction ts with
  | nil => intro ctx rest _; simp
  | cons t ts ih =>
    intro ctx rest h
    have ht : t.role = "tool" := h t (by simp)
    have hna : ¬(t.role = "assistant" ∧ t.tool_calls.isSome) := by
      rintro ⟨h1, -⟩
      rw [ht] at h1
      simp at h1
    rw [List.cons_append]
    show validateGo ctx (t :: (ts ++ rest)) = _
    rw [show validateGo ctx (t :: (ts ++ rest)) =
      (if hasImmediateToolCall ctx t.tool_call_id then [t] else []) ++
        validateGo ctx (ts ++ rest) by
        simp only [validateGo, if_neg hna, if_pos ht]]
    rw [ih ctx rest fun x hx => h x (by simp [hx]), List.filter_cons]
    by_cases hk : hasImmediateToolCall ctx t.tool_call_id
    · simp [hk]
    · simp [hk]

end CCRouter

namespace CCRouter

theorem PairInv_tail_tool {a b : Option OpenAIMessage} {m : OpenAIMessage}
    {rest : List OpenAIMessage} (hT : m.role = "tool")
    (h : PairInv a b (m :: rest)) : PairInv a b rest := by
  intro p hp hrole l hl tc htc hany
  apply h p hp hrole l hl tc htc
  have hcons : ((m :: rest).takeWhile fun x => x.role == "tool") =
      m :: (rest.takeWhile fun x => x.role == "tool") := by
    simp [List.takeWhile_cons, hT]
  rw [hcons, List.any_cons, hany]
  simp

end CCRouter

namespace CCRouter

theorem validateGo_cons_assistant_dropped (ctx : Option OpenAIMessage)
    (m : OpenAIMessage) (rest : List OpenAIMessage)
    (hrole : m.role = "assistant") (l0 : List ToolCall) (hl0 : m.tool_calls = some l0)
    (hval : (l0.filter fun tc =>
      (rest.takeWhile fun x => x.role == "tool").any fun tm =>
        tm.tool_call_id == tc.id) = []) :
    validateGo ctx (m :: rest) =
      (if m.hasContent then [({ m with tool_calls := none } : OpenAIMessage)] else []) ++
        validateGo (some m) rest := by
  have hsome : m.tool_calls.isSome := by simp [hl0]
  simp only [validateGo, if_pos (And.intro hrole hsome)]
  rw [hl0]
  simp only [Option.getD_some, hval, ne_eq, not_true_eq_false, if_false]
  simp

theorem validateGo_cons_assistant_kept (ctx : Option OpenAIMessage)
    (m : OpenAIMessage) (rest : List OpenAIMessage)
    (hrole : m.role = "assistant") (l0 : List ToolCall) (hl0 : m.tool_calls = some l0)
    (hval : (l0.filter fun tc =>
      (rest.takeWhile fun x => x.role == "tool").any fun tm =>
        tm.tool_call_id == tc.id) ≠ []) :
    validateGo ctx (m :: rest) =
      ({ m with tool_calls := some (l0.filter fun tc =>
        (rest.takeWhile fun x => x.role == "tool").any fun tm =>
          tm.tool_call_id == tc.id) } : OpenAIMessage) :: validateGo (some m) rest := by
  have hsome : m.tool_calls.isSome := by simp [hl0]
  simp only [validateGo, if_pos (And.intro hrole hsome)]
  rw [hl0]
  simp only [Option.getD_some, hval, ne_eq, not_false_eq_true, if_true]
  simp

theorem validateGo_cons_tool (ctx : Option OpenAIMessage)
    (m : OpenAIMessage) (rest : List OpenAIMessage) (hT : m.role = "tool") :
    validateGo ctx (m :: rest) =
      (if hasImmediateToolCall ctx m.tool_call_id then [m] else []) ++
        validateGo ctx rest := by
  have hna : ¬(m.role = "assistant" ∧ m.tool_calls.isSome) := by
    rintro ⟨h1, -⟩
    rw [hT] at h1
    simp at h1
  simp only [validateGo, if_neg hna, if_pos hT]

theorem validateGo_cons_other (ctx : Option OpenAIMessage)
    (m : OpenAIMessage) (rest : List OpenAIMessage)
    (hna : ¬(m.role = "assistant" ∧ m.tool_calls.isSome)) (hT : ¬m.role = "tool") :
    validateGo ctx (m :: rest) = m :: validateGo (some m) rest := by
  simp only [validateGo, if_neg hna, if_neg hT]

theorem wellPaired_cons_tool (ctx : Option OpenAIMessage)
    (m : OpenAIMessage) (rest : List OpenAIMessage) (hT : m.role = "tool") :
    wellPaired ctx (m :: rest) =
      ((match ctx with
        | some p =>
          p.role == "assistant" &&
            (match p.tool_calls with
             | some l => l.any fun tc => tc.id == m.tool_call_id
             | none => false)
        | none => false) &&
        wellPaired ctx rest) := by
  simp only [wellPaired, if_pos hT]

theorem wellPaired_cons_nontool (ctx : Option OpenAIMessage)
    (m : OpenAIMessage) (rest : List OpenAIMessage) (hT : ¬m.role = "tool") :
    wellPaired ctx (m :: rest) =
      ((if m.role = "assistant" then
        (match m.tool_calls with
         | some l =>
           l.all fun tc =>
             (rest.takeWhile fun x => x.role == "tool").any fun tm =>
               tm.tool_call_id == tc.id
         | none => true)
       else true) &&
        wellPaired (some m) rest) := by
  simp only [wellPaired, if_neg hT]

end CCRouter

namespace CCRouter

theorem validateGo_wellPaired (msgs : List OpenAIMessage) :
    ∀ (ctxOrig ctxOut : Option OpenAIMessage), PairInv ctxOrig ctxOut msgs →
      wellPaired ctxOut (validateGo ctxOrig msgs) = true := by
  induction msgs with
  | nil =>
    intro _ _ _
    rfl
  | cons m rest ih =>
    intro ctxOrig ctxOut hinv
    by_cases hA : m.role = "assistant" ∧ m.tool_calls.isSome
    · obtain ⟨hrole, hsome⟩ := hA
      obtain ⟨l0, hl0⟩ := Option.isSome_iff_exists.mp hsome
      have hNT : ¬m.role = "tool" := by rw [hrole]; simp
      by_cases hval : (l0.filter fun tc =>
          (rest.takeWhile fun x => x.role == "tool").any fun tm =>
            tm.tool_call_id == tc.id) = []
      · rw [validateGo_cons_assistant_dropped ctxOrig m rest hrole l0 hl0 hval]
        have hinv' : ∀ c : Option OpenAIMessage, PairInv (some m) c rest := by
          intro c p hp hprole l hl tc htc hany
          rw [Option.some_inj] at hp
          subst hp
          exfalso
          have hleq : l = l0 := Option.some_inj.mp (hl.symm.trans hl0)
          subst hleq
          have hmem : tc ∈ l.filter fun tc =>
              (rest.takeWhile fun x => x.role == "tool").any fun tm =>
                tm.tool_call_id == tc.id := List.mem_filter.mpr ⟨htc, hany⟩
          rw [hval] at hmem
          exact absurd hmem (List.not_mem_nil tc)
        by_cases hc : m.hasContent = true
        · rw [if_pos hc, List.singleton_append]
          rw [wellPaired_cons_nontool _ _ _ (by simpa using hNT), Bool.and_eq_true]
          constructor
          · rw [if_pos (show ({ m with tool_calls := none } : OpenAIMessage).role =
              "assistant" by simpa using hrole)]
          · exact ih (some m) (some { m with tool_calls := none }) (hinv' _)
        · rw [if_neg hc, List.nil_append]
          exact ih (some m) ctxOut (hinv' ctxOut)
      · rw [validateGo_cons_assistant_kept ctxOrig m rest hrole l0 hl0 hval]
        rw [wellPaired_cons_nontool _ _ _ (by simpa using hNT), Bool.and_eq_true]
        have hallrun : ∀ x ∈ (rest.takeWhile fun x : OpenAIMessage => x.role == "tool"),
            x.role = "tool" := by
          intro x hx
          simpa using List.mem_takeWhile_imp hx
        constructor
        · rw [if_pos (show ({ m with tool_calls := some (l0.filter fun tc =>
              (rest.takeWhile fun x => x.role == "tool").any fun tm =>
                tm.tool_call_id == tc.id) } : OpenAIMessage).role = "assistant"
              by simpa using hrole)]
          dsimp only
          rw [List.all_eq_true]
          intro tc htcv
          obtain ⟨htcl0, hanyrun⟩ := List.mem_filter.mp htcv
          obtain ⟨tm, htmrun, htmid⟩ := List.any_eq_true.mp hanyrun
          rw [List.any_eq_true]
          refine ⟨tm, ?_, htmid⟩
          have hrw : validateGo (some m) rest =
              ((rest.takeWhile fun x : OpenAIMessage => x.role == "tool").filter
                fun t => hasImmediateToolCall (some m) t.tool_call_id) ++
                validateGo (some m)
                  (rest.dropWhile fun x : OpenAIMessage => x.role == "tool") := by
            conv_lhs => rw [← List.takeWhile_append_dropWhile
              (p := fun x : OpenAIMessage => x.role == "tool") (l := rest)]
            exact validateGo_tools _ (some m) _ hallrun
          rw [hrw]
          have htmkeep : hasImmediateToolCall (some m) tm.tool_call_id = true := by
            simp only [hasImmediateToolCall, hl0]
            rw [Bool.and_eq_true]
            refine ⟨by simpa using hrole, ?_⟩
            rw [List.any_eq_true]
            refine ⟨tc, htcl0, ?_⟩
            have : tm.tool_call_id = tc.id := by simpa using htmid
            simp [this]
          have htmmem : tm ∈ (rest.takeWhile fun x : OpenAIMessage => x.role == "tool").filter
              fun t => hasImmediateToolCall (some m) t.tool_call_id :=
            List.mem_filter.mpr ⟨htmrun, htmkeep⟩
          have hfilttools : ∀ x ∈ (rest.takeWhile fun x : OpenAIMessage =>
              x.role == "tool").filter
              (fun t => hasImmediateToolCall (some m) t.tool_call_id),
              (fun x : OpenAIMessage => x.role == "tool") x = true := by
            intro x hx
            have hx1 := (List.mem_filter.mp hx).1
            simpa using hallrun x hx1
          rw [takeWhile_all_append _ _ _ hfilttools]
          exact List.mem_append.mpr (Or.inl htmmem)
        · apply ih (some m) (some { m with tool_calls := some (l0.filter fun tc =>
            (rest.takeWhile fun x => x.role == "tool").any fun tm =>
              tm.tool_call_id == tc.id) })
          intro p hp hprole l hl tc htc hany
          rw [Option.some_inj] at hp
          subst hp
          have hleq : l = l0 := Option.some_inj.mp (hl.symm.trans hl0)
          subst hleq
          exact ⟨_, _, rfl, by simpa using hprole, rfl, List.mem_filter.mpr ⟨htc, hany⟩⟩
    · by_cases hT : m.role = "tool"
      · rw [validateGo_cons_tool ctxOrig m rest hT]
        by_cases hk : hasImmediateToolCall ctxOrig m.tool_call_id = true
        · rw [if_pos hk, List.singleton_append, wellPaired_cons_tool _ _ _ hT]
          cases hctx : ctxOrig with
          | none =>
            rw [hctx] at hk
            simp [hasImmediateToolCall] at hk
          | some p =>
            rw [hctx] at hk
            simp only [hasImmediateToolCall] at hk
            rw [Bool.and_eq_true] at hk
            obtain ⟨hprole, hpmatch⟩ := hk
            have hprole' : p.role = "assistant" := by simpa using hprole
            cases hptc : p.tool_calls with
            | none =>
              rw [hptc] at hpmatch
              simp at hpmatch
            | some l =>
              rw [hptc] at hpmatch
              obtain ⟨tc, htcl, htcid⟩ := List.any_eq_true.mp hpmatch
              have htcid' : tc.id = m.tool_call_id := by simpa using htcid
              obtain ⟨p', l', hctxOut, hrole', hl', htcl'⟩ :=
                hinv p hctx hprole' l hptc tc htcl (by
                  have hcons : ((m :: rest).takeWhile fun x => x.role == "tool") =
                      m :: (rest.takeWhile fun x => x.role == "tool") := by
                    simp [List.takeWhile_cons, hT]
                  rw [hcons, List.any_cons]
                  have hme : (m.tool_call_id == tc.id) = true := by simp [htcid']
                  simp [hme])
              rw [hctxOut]
              dsimp only
              rw [Bool.and_eq_true]
              constructor
              · rw [hl', Bool.and_eq_true]
                refine ⟨by simp [hrole'], ?_⟩
                rw [List.any_eq_true]
                exact ⟨tc, htcl', by simp [htcid']⟩
              · refine ih (some p) (some p') ?_
                rw [← hctx, ← hctxOut]
                exact PairInv_tail_tool hT hinv
        · rw [if_neg hk, List.nil_append]
          exact ih ctxOrig ctxOut (PairInv_tail_tool hT hinv)
      · rw [validateGo_cons_other ctxOrig m rest hA hT,
          wellPaired_cons_nontool _ _ _ hT, Bool.and_eq_true]
        constructor
        · split
          · next hmrole =>
            cases hmtc : m.tool_calls with
            | none => rfl
            | some l => exact absurd ⟨hmrole, by simp [hmtc]⟩ hA
          · rfl
        · apply ih (some m) (some m)
          intro p hp hprole l hl tc htc hany
          rw [Option.some_inj] at hp
          subst hp
          exact absurd ⟨hprole, by simp [hl]⟩ hA

end CCRouter

namespace CCRouter

theorem validateGo_no_empty_calls (msgs : List OpenAIMessage) :
    ∀ (ctx : Option OpenAIMessage) (x : OpenAIMessage), x ∈ validateGo ctx msgs →
      x.role = "assistant" → x.tool_calls ≠ some [] := by
  induction msgs with
  | nil =>
    intro ctx x hx
    simp [validateGo] at hx
  | cons m rest ih =>
    intro ctx x hx hxrole
    by_cases hA : m.role = "assistant" ∧ m.tool_calls.isSome
    · obtain ⟨hrole, hsome⟩ := hA
      obtain ⟨l0, hl0⟩ := Option.isSome_iff_exists.mp hsome
      by_cases hval : (l0.filter fun tc =>
          (rest.takeWhile fun x => x.role == "tool").any fun tm =>
            tm.tool_call_id == tc.id) = []
      · rw [validateGo_cons_assistant_dropped ctx m rest hrole l0 hl0 hval] at hx
        rcases List.mem_append.mp hx with h1 | h2
        · by_cases hc : m.hasContent = true
          · rw [if_pos hc] at h1
            have hxm := List.mem_singleton.mp h1
            subst hxm
            simp
          · rw [if_neg hc] at h1
            exact absurd h1 (List.not_mem_nil x)
        · exact ih (some m) x h2 hxrole
      · rw [validateGo_cons_assistant_kept ctx m rest hrole l0 hl0 hval] at hx
        rcases List.mem_cons.mp hx with h1 | h2
        · subst h1
          intro hcontra
          exact hval (by simpa using hcontra)
        · exact ih (some m) x h2 hxrole
    · by_cases hT : m.role = "tool"
      · rw [validateGo_cons_tool ctx m rest hT] at hx
        rcases List.mem_append.mp hx with h1 | h2
        · by_cases hk : hasImmediateToolCall ctx m.tool_call_id = true
          · rw [if_pos hk] at h1
            have hxm := List.mem_singleton.mp h1
            subst hxm
            rw [hT] at hxrole
            simp at hxrole
          · rw [if_neg hk] at h1
            exact absurd h1 (List.not_mem_nil x)
        · exact ih ctx x h2 hxrole
      · rw [validateGo_cons_other ctx m rest hA hT] at hx
        rcases List.mem_cons.mp hx with h1 | h2
        · subst h1
          intro hcontra
          exact hA ⟨hxrole, by simp [hcontra]⟩
        · exact ih (some m) x h2 hxrole

/-- C4: tool-call pairing — for every input message list the output of
`validateOpenAIToolCalls` is well paired: every surviving `tool` message
matches a surviving tool call of the nearest preceding non-tool message (an
assistant), every surviving assistant tool call has a matching tool message in
the immediately following run of consecutive tool messages, and no surviving
assistant message carries an emptied-out tool_calls list — so the outbound
list contains no dangling tool reference of either kind. -/
theorem tool_pairing_invariant (messages : List OpenAIMessage) :
    wellPaired none (validateOpenAIToolCalls messages) = true ∧
    ∀ m ∈ validateOpenAIToolCalls messages,
      m.role = "assistant" → m.tool_calls ≠ some [] := by
  constructor
  · refine validateGo_wellPaired messages none none ?_
    intro p hp
    simp at hp
  · exact fun m hm => validateGo_no_empty_calls messages none m hm


/-- C4 witness: the pairing theorem applied to a concrete list (an assistant
with two tool calls of which one is answered). -/
theorem tool_pairing_invariant_witness :
    wellPaired none (validateOpenAIToolCalls toolPairMessages) = true ∧
    ({ role := "assistant", tool_calls := some [{ id := some "call_1" }] } :
      OpenAIMessage).tool_calls ≠ some [] :=
  ⟨(tool_pairing_invariant toolPairMessages).1,
   (tool_pairing_invariant toolPairMessages).2 _ (by decide) rfl⟩

end CCRouter

namespace CCRouter

/-- C8: image-mapping exhaustiveness — a url-type source with a non-empty url
maps to a plain image_url block; a base64 source with an allow-listed media
type and non-empty data maps to a data-URL block; file-type sources, missing
types and every other input raise a `BadRequestError`; and every successful
output comes from exactly one of the two accepting shapes — an image block is
never silently dropped. -/
theorem image_mapping_exhaustive (src : ImageSource) :
    (∀ u, src.type = some "url" → src.url = some u → u ≠ "" →
      mapAnthropicImageToOpenAIImageUrl src = .ok { url := u }) ∧
    (∀ mt d, src.type = some "base64" → src.media_type = some mt →
      mt ∈ allowedImageMediaTypes → src.data = some d → d ≠ "" →
      mapAnthropicImageToOpenAIImageUrl src =
        .ok { url := "data:" ++ mt ++ ";base64," ++ d }) ∧
    (src.type = some "file" →
      ∃ msg, mapAnthropicImageToOpenAIImageUrl src = .error msg) ∧
    ((src.type = none ∨ src.type = some "") →
      ∃ msg, mapAnthropicImageToOpenAIImageUrl src = .error msg) ∧
    (∀ b : ImageUrlBlock, mapAnthropicImageToOpenAIImageUrl src = .ok b →
      (src.type = some "url" ∧ src.url = some b.url ∧ b.url ≠ "") ∨
      (∃ mt d, src.type = some "base64" ∧ src.media_type = some mt ∧
        mt ∈ allowedImageMediaTypes ∧ src.data = some d ∧ d ≠ "" ∧
        b.url = "data:" ++ mt ++ ";base64," ++ d)) := by
  refine ⟨?_, ?_, ?_, ?_, ?_⟩
  · intro u htype hurl hu
    simp [mapAnthropicImageToOpenAIImageUrl, htype, hurl, hu]
  · intro mt d htype hmt hmem hdata hd
    simp [mapAnthropicImageToOpenAIImageUrl, htype, hmt, hmem, hdata, hd]
  · intro htype
    simp [mapAnthropicImageToOpenAIImageUrl, htype]
  · rintro (htype | htype) <;> simp [mapAnthropicImageToOpenAIImageUrl, htype]
  · intro b hb
    cases htype : src.type with
    | none => simp [mapAnthropicImageToOpenAIImageUrl, htype] at hb
    | some srcType =>
      simp only [mapAnthropicImageToOpenAIImageUrl, htype] at hb
      by_cases h0 : srcType = ""
      · simp [h0] at hb
      · rw [if_neg h0] at hb
        by_cases h1 : srcType = "url"
        · rw [if_pos h1] at hb
          cases hurl : src.url with
          | none => rw [hurl] at hb; simp at hb
          | some u =>
            rw [hurl] at hb
            dsimp only at hb
            by_cases hu : u = ""
            · simp [hu] at hb
            · rw [if_neg hu] at hb
              left
              subst h1
              cases hb
              exact ⟨rfl, rfl, hu⟩
        · rw [if_neg h1] at hb
          by_cases h2 : srcType = "base64"
          · rw [if_pos h2] at hb
            cases hmt : src.media_type with
            | none => rw [hmt] at hb; simp at hb
            | some mt =>
              rw [hmt] at hb
              dsimp only at hb
              by_cases hmem : mt ∈ allowedImageMediaTypes
              · rw [if_pos hmem] at hb
                cases hdata : src.data with
                | none => rw [hdata] at hb; simp at hb
                | some d =>
                  rw [hdata] at hb
                  dsimp only at hb
                  by_cases hd : d = ""
                  · simp [hd] at hb
                  · rw [if_neg hd] at hb
                    right
                    subst h2
                    refine ⟨mt, d, rfl, rfl, hmem, rfl, hd, ?_⟩
                    cases hb
                    rfl
              · rw [if_neg hmem] at hb
                simp at hb
          · rw [if_neg h2] at hb
            by_cases h3 : srcType = "file"
            · simp [h3] at hb
            · rw [if_neg h3] at hb
              simp at hb


/-- C8 witness: the image-mapping theorem applied to a concrete url source. -/
theorem image_mapping_exhaustive_witness :
    mapAnthropicImageToOpenAIImageUrl urlImageSource =
      .ok { url := "https://example.com/a.png" } :=
  (image_mapping_exhaustive urlImageSource).1 "https://example.com/a.png" rfl rfl
    (by decide)

end CCRouter

namespace CCRouter

theorem splitLines_append (a : List Char) :
    ∀ b : List Char,
    splitLines (a ++ b) =
      ((splitLines a).1 ++ (splitLines ((splitLines a).2 ++ b)).1,
        (splitLines ((splitLines a).2 ++ b)).2) := by
  induction a with
  | nil => intro b; simp [splitLines]
  | cons c cs ih =>
    intro b
    by_cases hc : c = '\n'
    · subst hc
      simp [List.cons_append, splitLines, ih b]
    · rcases hsc : splitLines cs with ⟨l1, r1⟩
      rcases hsb : splitLines (r1 ++ b) with ⟨l2, r2⟩
      have ih2 : splitLines (cs ++ b) = (l1 ++ l2, r2) := by
        rw [ih b, hsc]
        dsimp only
        rw [hsb]
      cases l1 with
      | nil =>
        cases l2 with
        | nil => simp [List.cons_append, splitLines, ih2, hsc, hsb, if_neg hc]
        | cons l ls2 => simp [List.cons_append, splitLines, ih2, hsc, hsb, if_neg hc]
      | cons l t =>
        cases l2 with
        | nil => simp [List.cons_append, splitLines, ih2, hsc, hsb, if_neg hc]
        | cons l2h ls2 => simp [List.cons_append, splitLines, ih2, hsc, hsb, if_neg hc]

theorem splitLines_no_newline (s : List Char) (h : (Char.mk 10 (by decide)) ∉ s) :
    splitLines s = ([], s) := by
  induction s with
  | nil => rfl
  | cons c cs ih =>
    have hc : ¬c = '\n' := fun hx => h (hx ▸ List.mem_cons_self c cs)
    have hcs : (Char.mk 10 (by decide)) ∉ cs := fun hx => h (List.mem_cons_of_mem c hx)
    simp [splitLines, ih hcs, if_neg hc]

theorem splitLines_rem_no_newline (s : List Char) :
    (Char.mk 10 (by decide)) ∉ (splitLines s).2 := by
  induction s with
  | nil => simp [splitLines]
  | cons c cs ih =>
    by_cases hc : c = '\n'
    · simp only [splitLines, if_pos hc]
      exact ih
    · simp only [splitLines, if_neg hc]
      rcases hsc : splitLines cs with ⟨l1, r1⟩
      rw [hsc] at ih
      cases l1 with
      | nil =>
        dsimp only
        intro hmem
        rcases List.mem_cons.mp hmem with h1 | h1
        · exact hc h1.symm
        · exact ih h1
      | cons l t =>
        dsimp only
        exact ih

end CCRouter

namespace CCRouter

theorem processLinesMain_append (parse : String → Option StreamFrame) (now : ℕ)
    (l1 : List (List Char)) :
    ∀ (st : StreamLoopState) (l2 : List (List Char)),
    processLinesMain parse now st (l1 ++ l2) =
      ((processLinesMain parse now (processLinesMain parse now st l1).1 l2).1,
        (processLinesMain parse now st l1).2 ++
          (processLinesMain parse now (processLinesMain parse now st l1).1 l2).2) := by
  induction l1 with
  | nil => intro st l2; simp [processLinesMain]
  | cons line rest ih =>
    intro st l2
    rcases hline : processLineMain parse now st line with ⟨st1, evs⟩
    simp only [List.cons_append, processLinesMain, hline, List.append_eq]
    rw [ih st1 l2]
    simp

theorem feedChunk_append (parse : String → Option StreamFrame) (now : ℕ)
    (bs : SSEBufferState) (a b : List Char) :
    feedChunk parse now bs (a ++ b) =
      ((feedChunk parse now (feedChunk parse now bs a).1 b).1,
        (feedChunk parse now bs a).2 ++
          (feedChunk parse now (feedChunk parse now bs a).1 b).2) := by
  rcases hsa : splitLines (bs.buffer ++ a) with ⟨l1, r1⟩
  rcases hsb : splitLines (r1 ++ b) with ⟨l2, r2⟩
  rcases hp1 : processLinesMain parse now bs.st l1 with ⟨st1, e1⟩
  rcases hp2 : processLinesMain parse now st1 l2 with ⟨st2, e2⟩
  have hsplit : splitLines (bs.buffer ++ (a ++ b)) = (l1 ++ l2, r2) := by
    rw [← List.append_assoc, splitLines_append (bs.buffer ++ a) b, hsa]
    dsimp only
    rw [hsb]
  have h3 : processLinesMain parse now bs.st (l1 ++ l2) = (st2, e1 ++ e2) := by
    rw [processLinesMain_append parse now l1 bs.st l2, hp1]
    dsimp only
    rw [hp2]
  have h1 : feedChunk parse now bs a = ({ buffer := r1, st := st1 }, e1) := by
    simp [feedChunk, hsa, hp1]
  have h2 : feedChunk parse now ({ buffer := r1, st := st1 } : SSEBufferState) b =
      ({ buffer := r2, st := st2 }, e2) := by
    simp [feedChunk, hsb, hp2]
  simp [feedChunk, hsplit, h3, hsa, hsb, hp1, hp2]

theorem feedAll_join (parse : String → Option StreamFrame) (now : ℕ)
    (chunks : List (List Char)) :
    ∀ (bs : SSEBufferState), (Char.mk 10 (by decide)) ∉ bs.buffer →
    feedAll parse now bs chunks = feedChunk parse now bs chunks.flatten := by
  induction chunks with
  | nil =>
    intro bs h
    simp only [feedAll, List.flatten_nil, feedChunk, List.append_nil,
      splitLines_no_newline bs.buffer h]
    simp [processLinesMain]
  | cons c cs ih =>
    intro bs h
    rcases hsa : splitLines (bs.buffer ++ c) with ⟨l1, r1⟩
    rcases hp1 : processLinesMain parse now bs.st l1 with ⟨st1, e1⟩
    have hfc : feedChunk parse now bs c = ({ buffer := r1, st := st1 }, e1) := by
      simp [feedChunk, hsa, hp1]
    have hbs1 : (Char.mk 10 (by decide)) ∉ r1 := by
      have hrm := splitLines_rem_no_newline (bs.buffer ++ c)
      rw [hsa] at hrm
      exact hrm
    rcases hfa : feedAll parse now ({ buffer := r1, st := st1 } : SSEBufferState) cs
      with ⟨bs2, e2⟩
    have hL : feedAll parse now bs (c :: cs) = (bs2, e1 ++ e2) := by
      simp [feedAll, hfc, hfa]
    have hR : feedChunk parse now bs ((c :: cs).flatten) = (bs2, e1 ++ e2) := by
      rw [List.flatten_cons, feedChunk_append parse now bs c cs.flatten, hfc]
      dsimp only
      rw [(ih _ hbs1).symm.trans hfa]
    rw [hL, hR]

/-- C3: chunk-boundary independence — any two partitions of the same logical
SSE byte sequence into input chunks make `streamOpenAIToAnthropic` emit the
identical output event sequence (same events, same indices, same payloads). -/
theorem stream_chunk_boundary_independence (parse : String → Option StreamFrame)
    (now : ℕ) (model : String) (pricing : Option StreamPricing)
    (chunks1 chunks2 : List (List Char)) (h : chunks1.flatten = chunks2.flatten) :
    streamOpenAIToAnthropic parse now model pricing chunks1 =
      streamOpenAIToAnthropic parse now model pricing chunks2 := by
  unfold streamOpenAIToAnthropic
  rw [feedAll_join parse now chunks1 {} (by simp),
    feedAll_join parse now chunks2 {} (by simp), h]

/-- C3 witness: the chunk-boundary-independence theorem applied to two
different splittings of the same bytes. -/
theorem stream_chunk_boundary_independence_witness :
    streamOpenAIToAnthropic (fun _ => none) 0 "m" none [['d', 'a'], ['t', 'a']] =
      streamOpenAIToAnthropic (fun _ => none) 0 "m" none [['d'], ['a', 't', 'a']] :=
  stream_chunk_boundary_independence (fun _ => none) 0 "m" none _ _ (by rfl)

end CCRouter

namespace CCRouter

theorem processRDItems_no_delta :
    ∀ (items : List RDItem) (st : StreamBlockState) (e : SSEEvent),
      e ∈ (processRDItems st items).2 → isMessageDelta e = false := by
  intro items
  induction items with
  | nil => intro st e he; simp [processRDItems] at he
  | cons item rest ih =>
    intro st e he
    simp only [processRDItems] at he
    repeat' split at he
    all_goals try dsimp only at he
    all_goals try simp only [List.mem_append, List.mem_cons, List.not_mem_nil,
      or_false, false_or] at he
    all_goals
      repeat (first
        | (exact ih _ e he)
        | (subst he; rfl)
        | (rcases he with he | he))

end CCRouter

namespace CCRouter

theorem processReasoning_no_delta (st : StreamBlockState) (delta : StreamDelta)
    (e : SSEEvent) (he : e ∈ (processReasoning st delta).2) :
    isMessageDelta e = false := by
  simp only [processReasoning] at he
  repeat' split at he
  all_goals try dsimp only at he
  all_goals try simp only [List.mem_append, List.mem_cons, List.not_mem_nil,
    or_false, false_or] at he
  all_goals
    repeat (first
      | (exact processRDItems_no_delta _ _ e he)
      | (subst he; rfl)
      | (rcases he with he | he))

theorem processOneToolCall_no_delta (st : StreamBlockState) (tc : ToolCallDelta)
    (e : SSEEvent) (he : e ∈ (processOneToolCall st tc).2) :
    isMessageDelta e = false := by
  simp only [processOneToolCall] at he
  repeat' split at he
  all_goals try dsimp only at he
  all_goals try simp only [List.mem_append, List.mem_cons, List.not_mem_nil,
    or_false, false_or] at he
  all_goals
    repeat (first
      | (subst he; rfl)
      | (rcases he with he | he))

theorem processToolCallList_no_delta :
    ∀ (tcs : List ToolCallDelta) (st : StreamBlockState) (e : SSEEvent),
      e ∈ (processToolCallList st tcs).2 → isMessageDelta e = false := by
  intro tcs
  induction tcs with
  | nil => intro st e he; simp [processToolCallList] at he
  | cons tc rest ih =>
    intro st e he
    simp only [processToolCallList] at he
    repeat' split at he
    all_goals try dsimp only at he
    all_goals try simp only [List.mem_append, List.mem_cons, List.not_mem_nil,
      or_false, false_or] at he
    all_goals
      repeat (first
        | (exact ih _ e he)
        | (exact processOneToolCall_no_delta _ _ e he)
        | (subst he; rfl)
        | (rcases he with he | he))

theorem processContentBranch_no_delta (st : StreamBlockState)
    (delta : StreamDelta) (e : SSEEvent)
    (he : e ∈ (processContentBranch st delta).2) : isMessageDelta e = false := by
  simp only [processContentBranch] at he
  repeat' split at he
  all_goals try dsimp only at he
  all_goals try simp only [List.mem_append, List.mem_cons, List.not_mem_nil,
    or_false, false_or] at he
  all_goals
    repeat (first
      | (subst he; rfl)
      | (rcases he with he | he))

theorem processToolCallsOrContent_no_delta (st : StreamBlockState)
    (delta : StreamDelta) (e : SSEEvent)
    (he : e ∈ (processToolCallsOrContent st delta).2) :
    isMessageDelta e = false := by
  simp only [processToolCallsOrContent] at he
  repeat' split at he
  all_goals try dsimp only at he
  all_goals try simp only [List.mem_append, List.mem_cons, List.not_mem_nil,
    or_false, false_or] at he
  all_goals
    repeat (first
      | (exact processToolCallList_no_delta _ _ e he)
      | (exact processContentBranch_no_delta _ _ e he)
      | (subst he; rfl)
      | (rcases he with he | he))

theorem processAnnotationList_no_delta (now : ℕ) :
    ∀ (anns : List UrlCitation) (st : StreamBlockState) (e : SSEEvent),
      e ∈ (processAnnotationList now st anns).2 → isMessageDelta e = false := by
  intro anns
  induction anns with
  | nil => intro st e he; simp [processAnnotationList] at he
  | cons ann rest ih =>
    intro st e he
    simp only [processAnnotationList] at he
    repeat' split at he
    all_goals try dsimp only at he
    all_goals try simp only [List.mem_append, List.mem_cons, List.not_mem_nil,
      or_false, false_or] at he
    all_goals
      repeat (first
        | (exact ih _ e he)
        | (subst he; rfl)
        | (rcases he with he | he))

theorem processAnnotationsSection_no_delta (now : ℕ) (st : StreamBlockState)
    (delta : StreamDelta) (e : SSEEvent)
    (he : e ∈ (processAnnotationsSection now st delta).2) :
    isMessageDelta e = false := by
  simp only [processAnnotationsSection] at he
  repeat' split at he
  all_goals try dsimp only at he
  all_goals try simp only [List.mem_append, List.mem_cons, List.not_mem_nil,
    or_false, false_or] at he
  all_goals
    repeat (first
      | (exact processAnnotationList_no_delta _ _ _ e he)
      | (subst he; rfl)
      | (rcases he with he | he))

theorem processStreamDelta_no_delta (now : ℕ) (st : StreamBlockState)
    (delta : StreamDelta) (e : SSEEvent)
    (he : e ∈ (processStreamDelta now st delta).2) : isMessageDelta e = false := by
  simp only [processStreamDelta] at he
  repeat' split at he
  all_goals try dsimp only at he
  all_goals try simp only [List.mem_append, List.mem_cons, List.not_mem_nil,
    or_false, false_or] at he
  all_goals
    repeat (first
      | (exact processReasoning_no_delta _ _ e he)
      | (exact processToolCallsOrContent_no_delta _ _ e he)
      | (exact processAnnotationsSection_no_delta _ _ _ e he)
      | (subst he; rfl)
      | (rcases he with he | he))

theorem processLineMain_no_delta (parse : String → Option StreamFrame) (now : ℕ)
    (st : StreamLoopState) (line : List Char) (e : SSEEvent)
    (he : e ∈ (processLineMain parse now st line).2) : isMessageDelta e = false := by
  simp only [processLineMain] at he
  repeat' split at he
  all_goals try dsimp only at he
  all_goals try simp only [List.mem_append, List.mem_cons, List.not_mem_nil,
    or_false, false_or] at he
  all_goals
    repeat (first
      | (exact processStreamDelta_no_delta _ _ _ e he)
      | (subst he; rfl)
      | (rcases he with he | he))

theorem processLineTail_no_delta (parse : String → Option StreamFrame) (now : ℕ)
    (st : StreamLoopState) (line : List Char) (e : SSEEvent)
    (he : e ∈ (processLineTail parse now st line).2) : isMessageDelta e = false := by
  simp only [processLineTail] at he
  repeat' split at he
  all_goals try dsimp only at he
  all_goals try simp only [List.mem_append, List.mem_cons, List.not_mem_nil,
    or_false, false_or] at he
  all_goals
    repeat (first
      | (exact processStreamDelta_no_delta _ _ _ e he)
      | (subst he; rfl)
      | (rcases he with he | he))

theorem processLinesMain_no_delta (parse : String → Option StreamFrame) (now : ℕ) :
    ∀ (lines : List (List Char)) (st : StreamLoopState) (e : SSEEvent),
      e ∈ (processLinesMain parse now st lines).2 → isMessageDelta e = false := by
  intro lines
  induction lines with
  | nil => intro st e he; simp [processLinesMain] at he
  | cons line rest ih =>
    intro st e he
    simp only [processLinesMain] at he
    repeat' split at he
    all_goals try dsimp only at he
    all_goals try simp only [List.mem_append, List.mem_cons, List.not_mem_nil,
      or_false, false_or] at he
    all_goals
      repeat (first
        | (exact ih _ e he)
        | (exact processLineMain_no_delta _ _ _ _ e he)
        | (subst he; rfl)
        | (rcases he with he | he))

theorem processLinesTail_no_delta (parse : String → Option StreamFrame) (now : ℕ) :
    ∀ (lines : List (List Char)) (st : StreamLoopState) (e : SSEEvent),
      e ∈ (processLinesTail parse now st lines).2 → isMessageDelta e = false := by
  intro lines
  induction lines with
  | nil => intro st e he; simp [processLinesTail] at he
  | cons line rest ih =>
    intro st e he
    simp only [processLinesTail] at he
    repeat' split at he
    all_goals try dsimp only at he
    all_goals try simp only [List.mem_append, List.mem_cons, List.not_mem_nil,
      or_false, false_or] at he
    all_goals
      repeat (first
        | (exact ih _ e he)
        | (exact processLineTail_no_delta _ _ _ _ e he)
        | (subst he; rfl)
        | (rcases he with he | he))

theorem feedChunk_no_delta (parse : String → Option StreamFrame) (now : ℕ)
    (bs : SSEBufferState) (chunk : List Char) (e : SSEEvent)
    (he : e ∈ (feedChunk parse now bs chunk).2) : isMessageDelta e = false := by
  simp only [feedChunk] at he
  repeat' split at he
  all_goals try dsimp only at he
  all_goals
    exact processLinesMain_no_delta _ _ _ _ e he

end CCRouter

namespace CCRouter

theorem processLineMain_totals (parse : String → Option StreamFrame) (now : ℕ)
    (st : StreamLoopState) (line : List Char) :
    (processLineMain parse now st line).1.totals =
      (match lineUsage parse line with
        | some u => updateUsage st.totals u
        | none => st.totals) := by
  simp only [processLineMain, lineUsage]
  repeat' split
  all_goals try rfl
  all_goals simp_all

theorem processLineTail_totals (parse : String → Option StreamFrame) (now : ℕ)
    (st : StreamLoopState) (line : List Char) :
    (processLineTail parse now st line).1.totals =
      (match lineUsage parse line with
        | some u => updateUsage st.totals u
        | none => st.totals) := by
  simp only [processLineTail, lineUsage]
  repeat' split
  all_goals try rfl
  all_goals simp_all

theorem processLinesMain_totals (parse : String → Option StreamFrame) (now : ℕ) :
    ∀ (lines : List (List Char)) (st : StreamLoopState),
      (processLinesMain parse now st lines).1.totals =
        (lines.filterMap (lineUsage parse)).foldl updateUsage st.totals := by
  intro lines
  induction lines with
  | nil => intro st; simp [processLinesMain]
  | cons line rest ih =>
    intro st
    have h1 := processLineMain_totals parse now st line
    rcases hp : processLineMain parse now st line with ⟨st1, evs⟩
    rw [hp] at h1
    rcases hu : lineUsage parse line with _ | u <;> rw [hu] at h1 <;>
      simp only [processLinesMain, hp, List.filterMap_cons, hu, List.foldl_cons] <;>
      (try dsimp only) <;> rw [ih st1, h1]

theorem processLinesTail_totals (parse : String → Option StreamFrame) (now : ℕ) :
    ∀ (lines : List (List Char)) (st : StreamLoopState),
      (processLinesTail parse now st lines).1.totals =
        (lines.filterMap (lineUsage parse)).foldl updateUsage st.totals := by
  intro lines
  induction lines with
  | nil => intro st; simp [processLinesTail]
  | cons line rest ih =>
    intro st
    have h1 := processLineTail_totals parse now st line
    rcases hp : processLineTail parse now st line with ⟨st1, evs⟩
    rw [hp] at h1
    rcases hu : lineUsage parse line with _ | u <;> rw [hu] at h1 <;>
      simp only [processLinesTail, hp, List.filterMap_cons, hu, List.foldl_cons] <;>
      (try dsimp only) <;> rw [ih st1, h1]

end CCRouter

namespace CCRouter

/-- C7: usage accumulation — the translated stream is a `message_start`, a body
of events none of which is a `message_delta`, then a single final
`message_delta` whose usage is `calculateStreamUsage` of the running snapshot
obtained by folding `updateUsage` over every usage object carried by the
processed frames (so the final snapshot feeds the one surfaced usage and
earlier partial snapshots are never surfaced), and `message_stop`. -/
theorem usage_last_snapshot_final_delta (parse : String → Option StreamFrame)
    (now : ℕ) (model : String) (pricing : Option StreamPricing)
    (chunks : List (List Char)) :
    ∃ (body : List SSEEvent) (stopR : String),
      streamOpenAIToAnthropic parse now model pricing chunks =
        SSEEvent.message_start ("msg_" ++ toString now) model ::
          (body ++
            [SSEEvent.message_delta stopR
              (calculateStreamUsage
                (((allProcessedLines chunks).filterMap
                    (lineUsage parse)).foldl updateUsage {}).totalInputTokens
                (((allProcessedLines chunks).filterMap
                    (lineUsage parse)).foldl updateUsage {}).totalOutputTokens
                (((allProcessedLines chunks).filterMap
                    (lineUsage parse)).foldl updateUsage {}).totalCacheReadTokens
                (((allProcessedLines chunks).filterMap
                    (lineUsage parse)).foldl updateUsage {}).actualCost
                pricing
                (((allProcessedLines chunks).filterMap
                    (lineUsage parse)).foldl updateUsage {}).totalReasoningTokens),
            SSEEvent.message_stop]) ∧
      ∀ e ∈ body, isMessageDelta e = false := by
  have hjoin := feedAll_join parse now chunks ({} : SSEBufferState) (by simp)
  rcases hsp : splitLines chunks.flatten with ⟨lines, rem⟩
  rcases hpm : processLinesMain parse now ({} : StreamLoopState) lines with ⟨stM, evsM⟩
  have hfc : feedChunk parse now ({} : SSEBufferState) chunks.flatten =
      ({ buffer := rem, st := stM }, evsM) := by
    simp [feedChunk, hsp, hpm]
  rw [hfc] at hjoin
  have hMt : stM.totals =
      (lines.filterMap (lineUsage parse)).foldl updateUsage ({} : StreamUsageTotals) := by
    have h := processLinesMain_totals parse now lines {}
    rw [hpm] at h
    exact h
  have hMnd : ∀ e ∈ evsM, isMessageDelta e = false := by
    intro e he
    have h := processLinesMain_no_delta parse now lines {} e
    rw [hpm] at h
    exact h he
  unfold streamOpenAIToAnthropic
  rw [hjoin]
  dsimp only
  by_cases hrem : (String.mk rem).trim ≠ ""
  · rcases hpt : processLinesTail parse now stM (splitOnNewline rem) with ⟨stT, evsT⟩
    have hTt : stT.totals =
        ((splitOnNewline rem).filterMap (lineUsage parse)).foldl updateUsage stM.totals := by
      have h := processLinesTail_totals parse now (splitOnNewline rem) stM
      rw [hpt] at h
      exact h
    have hT : ((allProcessedLines chunks).filterMap (lineUsage parse)).foldl
        updateUsage ({} : StreamUsageTotals) = stT.totals := by
      rw [hTt, hMt, allProcessedLines, hsp]
      dsimp only
      rw [if_pos hrem, List.filterMap_append, List.foldl_append]
    have hTnd : ∀ e ∈ evsT, isMessageDelta e = false := by
      intro e he
      have h := processLinesTail_no_delta parse now (splitOnNewline rem) stM e
      rw [hpt] at h
      exact h he
    refine ⟨evsM ++ (evsT ++
        (if stT.blocks.isToolUse || stT.blocks.hasStartedTextBlock ||
            stT.blocks.hasStartedThinkingBlock then
          [SSEEvent.content_block_stop stT.blocks.contentBlockIndex]
        else [])),
      (if stT.blocks.isToolUse then "tool_use" else "end_turn"), ?_, ?_⟩
    · rw [hT]
      simp only [finalizeStream]
      try dsimp only
      rw [if_pos hrem, hpt]
      dsimp only
      simp [List.append_assoc]
    · intro e he
      rcases List.mem_append.mp he with h | h
      · exact hMnd e h
      rcases List.mem_append.mp h with h | h
      · exact hTnd e h
      · split at h
        · simp at h
          subst h
          rfl
        · simp at h
  · have hT : ((allProcessedLines chunks).filterMap (lineUsage parse)).foldl
        updateUsage ({} : StreamUsageTotals) = stM.totals := by
      rw [hMt, allProcessedLines, hsp]
      dsimp only
      rw [if_neg hrem]
      simp
    refine ⟨evsM ++
        (if stM.blocks.isToolUse || stM.blocks.hasStartedTextBlock ||
            stM.blocks.hasStartedThinkingBlock then
          [SSEEvent.content_block_stop stM.blocks.contentBlockIndex]
        else []),
      (if stM.blocks.isToolUse then "tool_use" else "end_turn"), ?_, ?_⟩
    · rw [hT]
      simp only [finalizeStream]
      try dsimp only
      rw [if_neg hrem]
      try dsimp only
      simp [List.append_assoc]
    · intro e he
      rcases List.mem_append.mp he with h | h
      · exact hMnd e h
      · split at h
        · simp at h
          subst h
          rfl
        · simp at h

end CCRouter

namespace CCRouter

/-- C6 counterexample: the streaming translator does not clamp the final
`input_tokens` at zero — with accumulated prompt 5 and cached 10 it reports
−5, a negative value. -/
theorem stream_input_tokens_negative :
    (calculateStreamUsage 5 0 10 none none 0).input_tokens = -5 ∧
      (calculateStreamUsage 5 0 10 none none 0).input_tokens < 0 := by
  constructor <;> norm_num [calculateStreamUsage]

/-- C6 (amended): on the non-streaming path `computeUsageMetrics` surfaces
`cache_read` as the normalised upstream cached_tokens and
`input_tokens = max 0 (prompt − cacheRead)`, hence never negative; but the
streaming translator surfaces `cache_read = totalCacheReadTokens` and
`input_tokens = totalInputTokens − totalCacheReadTokens` with no clamp. -/
theorem token_accounting_amended :
    (∀ (u : Option UpstreamUsage) (md : Option CacheControlMetadata)
        (p : Option ModelPricing),
      (computeUsageMetrics u md p).usage.cache_read_input_tokens =
        normaliseTokens (u.getD {}).cached_tokens ∧
      (computeUsageMetrics u md p).usage.input_tokens =
        max 0 (normaliseTokens (u.getD {}).prompt_tokens -
          normaliseTokens (u.getD {}).cached_tokens) ∧
      0 ≤ (computeUsageMetrics u md p).usage.input_tokens) ∧
    (∀ (tin tout tcr : ℚ) (cost : Option ℚ) (pricing : Option StreamPricing)
        (trt : ℚ),
      (calculateStreamUsage tin tout tcr cost pricing trt).cache_read_input_tokens
          = tcr ∧
      (calculateStreamUsage tin tout tcr cost pricing trt).input_tokens
          = tin - tcr) :=
  ⟨fun u md p => ⟨rfl, rfl, le_max_left 0 _⟩, fun _ _ _ _ _ _ => ⟨rfl, rfl⟩⟩

end CCRouter
